import Mathlib

/-!
Verification of the SchemaGeneration inference-merge-validate-project pipeline.

Shallow embedding of the Python sources:
  * `src/merge/align.py`      — naming normalization (`normalize_entity_name`,
    `normalize_attr_name`, `apply_aliases`, `unify_naming`)
  * `src/merge/rules.py`      — `resolve_cardinality`
  * `src/validate/schema_validate.py` — `validate_mer_basic`
  * `src/pipeline/run_all.py` — `merge_parts`
  * `src/pipeline/passes/{entities,atributes,relationships}.py` — pass runners
  * `src/projectors/prisma/to_prisma.py` — type mapping and model generation

Python dicts with fixed field access patterns are embedded as Lean structures;
a key read with `d.get(k)` becomes an `Option` field, a key read with `d[k]`
becomes a mandatory field.  Python functions that can raise become
`Option`/`Except`-valued.  Machine text is `String` (ASCII fragment; the regex
classes in the source are explicitly ASCII `[A-Za-z0-9]`).  Floats (confidence
scores) are embedded as `ℚ`: the code only compares and takes `max`, never does
lossy arithmetic.
-/

namespace SchemaGen

/-! ### Generic string helpers mirroring the Python primitives used -/

/-- Maximal runs of `[A-Za-z0-9]` characters, accumulator-style.  This is the
composition used in `normalize_attr_name`:
`re.sub(r'[^A-Za-z0-9]+', ' ', name).strip().split()` — replacing each run of
non-alphanumerics by a space, trimming, and splitting on whitespace yields
exactly the maximal alphanumeric runs, in order. -/
def alnumRunsAux : List Char → List Char → List (List Char)
  | [], cur => if cur.isEmpty then [] else [cur.reverse]
  | c :: cs, cur =>
    if c.isAlphanum then alnumRunsAux cs (c :: cur)
    else if cur.isEmpty then alnumRunsAux cs cur
    else cur.reverse :: alnumRunsAux cs []

/-- `re.sub(r'[^A-Za-z0-9]+', ' ', s).strip().split()` on the character list. -/
def alnumRuns (s : List Char) : List (List Char) := alnumRunsAux s []

/-- Python `str.capitalize()` (ASCII): first character uppercased, the rest
lowercased. -/
def pyCapitalize : List Char → List Char
  | [] => []
  | c :: cs => c.toUpper :: cs.map Char.toLower

/-- Python `name[:1].upper() + name[1:]`. -/
def upperFirst : List Char → List Char
  | [] => []
  | c :: cs => c.toUpper :: cs

/-- Python `sub in s` on strings (substring test). -/
def containsSub (s sub : String) : Bool :=
  go sub.toList s.toList
where
  go (sub : List Char) : List Char → Bool
    | [] => sub.isEmpty
    | c :: cs => sub.isPrefixOf (c :: cs) || go sub cs

/-- Python `s.endswith(t)`. -/
def endsWithStr (s t : String) : Bool := t.toList.isSuffixOf s.toList

/-- Python `s.lower()` (ASCII). -/
def lowerStr (s : String) : String := (s.toList.map Char.toLower).asString

/-- Lookup in an association list (the embedding of Python `dict` reads;
dicts produced by JSON parsing or dict literals have unique keys, for which
first-match lookup coincides with dict lookup). -/
def dlookup {β : Type} (k : String) : List (String × β) → Option β
  | [] => none
  | p :: m => if p.1 = k then some p.2 else dlookup k m

/-- Python `dict` write `d[k] = v`: overwrite in place when the key exists,
append at the end otherwise (insertion-order semantics of `dict`). -/
def dictSet {β : Type} (m : List (String × β)) (k : String) (v : β) :
    List (String × β) :=
  if (dlookup k m).isSome then m.map (fun p => if p.1 = k then (p.1, v) else p)
  else m ++ [(k, v)]

/-! ### `src/merge/align.py` -/

/-- `normalize_entity_name(name)`:
`re.sub(r'[^A-Za-z0-9]', '', name[:1].upper() + name[1:])` — uppercase the
first character, then strip every non-alphanumeric character. -/
def normalize_entity_name (name : String) : String :=
  ((upperFirst name.toList).filter Char.isAlphanum).asString

/-- `normalize_attr_name(name)`: empty names are returned unchanged; otherwise
split into maximal alphanumeric runs, lowercase the first run entirely,
`capitalize()` the later runs and concatenate.  When the name is non-empty but
contains no alphanumeric character at all, `parts` is empty and the Python
code raises `IndexError` on `parts[0]` — embedded as `none`. -/
def normalize_attr_name (name : String) : Option String :=
  if name = "" then some name
  else
    match alnumRuns name.toList with
    | [] => none
    | p :: ps => some ((p.map Char.toLower ++ (ps.map pyCapitalize).flatten).asString)

/-- One glossary entry: `{"term": ..., "aliases": [...]}`.  `g.get("term")` is
an optional read, `g.get("aliases") or []` defaults to the empty list. -/
structure GlossaryTerm where
  term : Option String
  aliases : List String
deriving DecidableEq

/-- `apply_aliases(name, glossary)`: return the first matching entry's
canonical term (which may be Python `None` when the entry has aliases but no
`term` key — embedded as the `none` result), or the name unchanged.  The
unused local `aliases` set comprehension in the source has no effect and is
omitted. -/
def apply_aliases (name : String) (glossary : List GlossaryTerm) : Option String :=
  match glossary.find? (fun g => g.term = some name ∨ name ∈ g.aliases) with
  | some g => g.term
  | none => some name

/-! ### Pipeline data model (typed view of the JSON dicts) -/

/-- One attribute dict.  `name` is read with mandatory indexing in the code
paths we embed; `type`/`default` with `.get` (optional); the flags with
`.get(_, False)` truthiness. -/
structure Attribute where
  name : String
  atype : Option String
  pk : Bool
  unique : Bool
  nullable : Bool
  dflt : Option String
deriving DecidableEq

/-- One entity dict.  `attributes` is read with `e.get("attributes", ...)`
everywhere, so absence of the key is observable (`merge_parts` defaults to the
base entity's list) — hence `Option`. -/
structure Entity where
  name : String
  attributes? : Option (List Attribute)
  sources : List String
  confidence : Option ℚ
deriving DecidableEq

/-- A relationship's `fk` descriptor dict, both fields read with `.get`. -/
structure FKDesc where
  fkAttr : Option String
  ref : Option String
deriving DecidableEq

/-- One relationship dict as handled by `resolve_cardinality` and
`unify_naming`: `from`/`to`/`type` are read with `.get` by the resolver (and
with mandatory indexing by `unify_naming`, which therefore fails on `none`). -/
structure Relationship where
  rfrom : Option String
  rto : Option String
  rtype : Option String
  fk : Option FKDesc
  sources : List String
deriving DecidableEq

/-- One document rule (only `kind == "cardinality"` is acted upon). -/
structure Rule where
  kind : Option String
  rfrom : Option String
  rto : Option String
  rtype : Option String
  sources : List String
deriving DecidableEq

/-- One enum from `ContextPack.documents.enums`. -/
structure Enum where
  name : String
  values : List String
  sources : List String
deriving DecidableEq

/-- An open-question entry. -/
structure OpenQuestion where
  question : String
  sources : List String
deriving DecidableEq

/-- Output of one inference pass (`e`, `a`, `r` in `run_all.py`); each key is
read with `.get(_, [])` or `or []`, so a missing key is the empty list. -/
structure PassResult where
  entities : List Entity
  relationships : List Relationship
  open_questions : List OpenQuestion
deriving DecidableEq

/-- The merged MER produced by `merge_parts`.  `meta.generation_time` is the
constant `None` and is omitted; `meta.open_questions` is flattened into
`open_questions`. -/
structure Mer where
  entities : List Entity
  relationships : List Relationship
  enums : List Enum
  open_questions : List OpenQuestion
deriving DecidableEq

/-- The `documents` section of the context pack, as consumed by
`merge_parts`: `(ctx.get("documents") or {}).get("rules", [])` and
`....get("enums", [])`. -/
structure Ctx where
  rules : List Rule
  enums : List Enum
deriving DecidableEq

/-! ### `unify_naming` (align.py, lines 22–33) -/

/-- The attribute loop of `unify_naming`: `a["name"] = normalize_attr_name(a["name"])`.
`none` propagates the `IndexError` raised by `normalize_attr_name`. -/
def unifyAttrs : List Attribute → Option (List Attribute)
  | [] => some []
  | a :: rest => do
    let n ← normalize_attr_name a.name
    let tail ← unifyAttrs rest
    pure ({ a with name := n } :: tail)

/-- The entity loop of `unify_naming`.  `apply_aliases` returning Python
`None` makes the subsequent `normalize_entity_name(None)` raise — embedded as
`none`.  An absent `attributes` key is left absent (the loop body just
iterates over the default `[]`). -/
def unifyEntities (glossary : List GlossaryTerm) : List Entity → Option (List Entity)
  | [] => some []
  | e :: rest => do
    let base ← apply_aliases e.name glossary
    let newAttrs? ← match e.attributes? with
      | none => pure none
      | some attrs => do
        let l ← unifyAttrs attrs
        pure (some l)
    let tail ← unifyEntities glossary rest
    pure ({ e with name := normalize_entity_name base, attributes? := newAttrs? } :: tail)

/-- The `fk` handling of the relationship loop:
`if "fk" in r and r["fk"].get("attribute"):` — the attribute is normalized
only when the descriptor is present and its attribute truthy (a non-empty
string); `none` propagates a raised `IndexError`. -/
def unifyFk : Option FKDesc → Option (Option FKDesc)
  | none => some none
  | some fkd =>
    match fkd.fkAttr with
    | some a =>
      if a ≠ "" then do
        let a' ← normalize_attr_name a
        pure (some { fkd with fkAttr := some a' })
      else some (some fkd)
    | none => some (some fkd)

/-- The relationship loop of `unify_naming`: `r["from"]` and `r["to"]` are
mandatory reads (a missing key raises `KeyError` — `none`). -/
def unifyRels (glossary : List GlossaryTerm) : List Relationship → Option (List Relationship)
  | [] => some []
  | r :: rest => do
    let f ← r.rfrom
    let f' ← apply_aliases f glossary
    let t ← r.rto
    let t' ← apply_aliases t glossary
    let fk' ← unifyFk r.fk
    let tail ← unifyRels glossary rest
    pure ({ r with rfrom := some (normalize_entity_name f'),
                   rto := some (normalize_entity_name t'),
                   fk := fk' } :: tail)

/-- `unify_naming(mer, glossary)` (align.py).  The Python function mutates the
MER in place and returns it; the embedding is the corresponding pure function,
`none` when the original raises. -/
def unify_naming (mer : Mer) (glossary : List GlossaryTerm) : Option Mer := do
  let es ← unifyEntities glossary mer.entities
  let rs ← unifyRels glossary mer.relationships
  pure { mer with entities := es, relationships := rs }

/-! ### `src/merge/rules.py` -/

/-- The match test of `resolve_cardinality`: rule kind `"cardinality"` and
exact (case-sensitive) equality of the optional `from`/`to` values. -/
def cardMatches (rel : Relationship) (u : Rule) : Bool :=
  u.kind = some "cardinality" ∧ u.rfrom = rel.rfrom ∧ u.rto = rel.rto

/-- `resolve_cardinality(rel, doc_rules)`: each matching rule (in list order)
overwrites `type` with its own `type` when it has one
(`rule.get("type", rel.get("type"))`) and appends its sources
(`rel.setdefault("sources", []).extend(rule.get("sources", []))`).  The loop
never modifies `from`/`to`, so matching always tests the original pair. -/
def resolve_cardinality (rel : Relationship) (doc_rules : List Rule) : Relationship :=
  doc_rules.foldl
    (fun r u =>
      if cardMatches r u then
        { r with rtype := match u.rtype with | some t => some t | none => r.rtype,
                 sources := r.sources ++ u.sources }
      else r)
    rel

/-! ### `merge_parts` (run_all.py, lines 26–57) -/

/-- The update applied to a base (entities-pass) entity when the attributes
pass returns an entity of the same name: overwrite the attribute list
(`ea.get("attributes", base.get("attributes", []))`), extend the sources, and
take the maximum confidence, each side defaulting to `0`. -/
def mergedOf (base ea : Entity) : Entity :=
  { base with
    attributes? := some (ea.attributes?.getD (base.attributes?.getD [])),
    sources := base.sources ++ ea.sources,
    confidence := some (max (base.confidence.getD 0) (ea.confidence.getD 0)) }

/-- The body of the `for ea in (a.get("entities") or [])` loop of
`merge_parts`: on a name hit, mutate the stored entity via `mergedOf`;
otherwise admit the attributes-pass entity under its name. -/
def mergeStep (m : List (String × Entity)) (ea : Entity) : List (String × Entity) :=
  match dlookup ea.name m with
  | some base => dictSet m ea.name (mergedOf base ea)
  | none => m ++ [(ea.name, ea)]

/-- `merge_parts(e, a, r, ctx)`: name-keyed map from the entities pass, folded
with the attributes pass, relationships from the relationships pass passed
through `resolve_cardinality` with the document rules, enums straight from the
context pack, open questions concatenated in pass order. -/
def merge_parts (e a r : PassResult) (ctx : Ctx) : Mer :=
  let m0 := e.entities.foldl (fun m x => dictSet m x.name x) []
  let m1 := a.entities.foldl mergeStep m0
  { entities := m1.map Prod.snd,
    relationships := r.relationships.map (fun rel => resolve_cardinality rel ctx.rules),
    enums := ctx.enums,
    open_questions := e.open_questions ++ a.open_questions ++ r.open_questions }

/-! ### Inference pass runners (`src/pipeline/passes/*.py`)

The LLM backend `run_model` is a stateful external call returning a string per
invocation; it is embedded as `responses : Nat → String` giving the text of
the i-th call made by the pass.  `json.loads` plus shape interpretation is the
external parser, embedded as `parse : String → Except String PassResult`
(`Except.error e` = a raised `JSONDecodeError` with message `e`).  Prompt
construction is pure string concatenation with no effect on control flow and
is elided. -/

/-- An ASCII whitespace character (the characters `str.strip()` removes). -/
def isSpaceChar (c : Char) : Bool :=
  c = ' ' ∨ c = '\t' ∨ c = '\n' ∨ c = '\r' ∨ c = '\x0b' ∨ c = '\x0c'

/-- Python `s.strip()` (ASCII whitespace). -/
def pyStrip (s : String) : String :=
  ((s.toList.dropWhile isSpaceChar).reverse.dropWhile isSpaceChar).reverse.asString

/-- Python `not out or out.strip() == ""`. -/
def isBlankStr (out : String) : Bool := out = "" || pyStrip out = ""

/-- `run_entities` (entities.py): builds the prompt, calls the model once and
parses the result directly — `json.loads(out)`, with no retry and no
fallback: a parse failure propagates as an exception. -/
def run_entities (parse : String → Except String PassResult)
    (responses : Nat → String) : Except String PassResult :=
  parse (responses 0)

/-- `run_relationships` (relationships.py): same single-call direct-parse
shape as `run_entities`. -/
def run_relationships (parse : String → Except String PassResult)
    (responses : Nat → String) : Except String PassResult :=
  parse (responses 0)

/-- The fallback dict built by `run_attributes` (no `relationships` key). -/
def attrsFallback (base : PassResult) (question : String) (tag : String) : PassResult :=
  { entities := base.entities,
    relationships := [],
    open_questions := [{ question := question, sources := [tag] }] }

/-- `run_attributes` (atributes.py, lines 6–58): call the model; when the
response is blank, retry once; when still blank, return the empty-response
fallback; otherwise parse, returning the parse-error fallback on a
`JSONDecodeError`. -/
def run_attributes (base : PassResult) (parse : String → Except String PassResult)
    (responses : Nat → String) : PassResult :=
  let out0 := responses 0
  let out := if isBlankStr out0 then responses 1 else out0
  if isBlankStr out then
    attrsFallback base
      "LLM returned empty response for attributes. Please review and add attributes manually."
      "system:llm_error"
  else
    match parse out with
    | .ok result => result
    | .error e =>
      attrsFallback base
        ("LLM response parsing failed: " ++ e ++ ". Please review and add attributes manually.")
        "system:json_error"

/-! ### `validate_mer_basic` (`src/validate/schema_validate.py`)

The validator receives an arbitrary JSON value (it is also run on files loaded
directly from disk), so its input is embedded as a dynamic JSON value and its
dynamic failures (`AssertionError`, `AttributeError` from `.get` on a
non-dict, `TypeError` from iterating a non-sequence) are explicit errors. -/

/-- A JSON value.  Numbers are embedded as `Int`: the validator only tests
truthiness, for which integral values suffice. -/
inductive JVal where
  | jnull : JVal
  | jbool : Bool → JVal
  | jnum : Int → JVal
  | jstr : String → JVal
  | jarr : List JVal → JVal
  | jobj : List (String × JVal) → JVal

/-- Python truthiness of a JSON value. -/
def truthy : JVal → Bool
  | .jnull => false
  | .jbool b => b
  | .jnum n => n ≠ 0
  | .jstr s => s ≠ ""
  | .jarr xs => ¬ xs.isEmpty
  | .jobj kvs => ¬ kvs.isEmpty

/-- An exception raised by `validate_mer_basic`. -/
inductive VErr where
  /-- `AssertionError` with its message. -/
  | assertFail : String → VErr
  /-- `AttributeError`: `.get` called on a non-dict. -/
  | attrError : VErr
  /-- `TypeError`: iterating a non-iterable. -/
  | typeError : VErr
deriving DecidableEq

/-- Python `d.get(k, dflt)`; `AttributeError` when `d` is not a dict.
Object keys are assumed unique (as produced by JSON parsing). -/
def dictGet (v : JVal) (k : String) (dflt : JVal) : Except VErr JVal :=
  match v with
  | .jobj kvs => .ok ((dlookup k kvs).getD dflt)
  | _ => .error .attrError

/-- Rendering of a JSON scalar inside an f-string (`str()`); composite values
only need a placeholder rendering for our purposes. -/
def pyStr : JVal → String
  | .jnull => "None"
  | .jbool b => if b then "True" else "False"
  | .jnum n => toString n
  | .jstr s => s
  | .jarr _ => "[...]"
  | .jobj _ => "{...}"

/-- `any(a.get("pk") for a in attrs)` over a list: short-circuiting, raising
`AttributeError` when a non-dict element is reached first. -/
def anyPk : List JVal → Except VErr Bool
  | [] => .ok false
  | a :: rest => do
    let pk ← dictGet a "pk" .jnull
    if truthy pk then .ok true else anyPk rest

/-- `any(a.get("pk") for a in attrs)` where `attrs` may be any JSON value
(`e.get("attributes", [])` does not guarantee a list): iterating a string
yields its characters (each failing `.get`), iterating a dict yields its
keys, iterating anything else raises `TypeError`. -/
def anyPkOf : JVal → Except VErr Bool
  | .jarr xs => anyPk xs
  | .jstr s => if s = "" then .ok false else .error .attrError
  | .jobj kvs => if kvs.isEmpty then .ok false else .error .attrError
  | _ => .error .typeError

/-- The message of the missing-primary-key assertion for entity `e`:
`f"The entity {e.get('name')} does not have a primary key (pk)"`; at this
point `e` is known to be a dict. -/
def pkFailMsg (e : JVal) : String :=
  "The entity " ++ pyStr ((match e with | .jobj kvs => (dlookup "name" kvs).getD .jnull | _ => .jnull))
    ++ " does not have a primary key (pk)"

/-- The `for e in mer["entities"]` loop of `validate_mer_basic`. -/
def checkEntities : List JVal → Except VErr Unit
  | [] => .ok ()
  | e :: rest => do
    let attrs ← dictGet e "attributes" (.jarr [])
    let ok ← anyPkOf attrs
    if ok then checkEntities rest else .error (.assertFail (pkFailMsg e))

/-- `validate_mer_basic(mer)` (schema_validate.py): assert the MER is a dict,
that `entities` and `relationships` are present and are lists, and that every
entity has a truthy `pk` attribute. -/
def validate_mer_basic (mer : JVal) : Except VErr Unit :=
  match mer with
  | .jobj kvs =>
    match dlookup "entities" kvs with
    | some (.jarr es) =>
      (match dlookup "relationships" kvs with
       | some (.jarr _) => checkEntities es
       | _ => .error (.assertFail "MER.relationships must be a list"))
    | _ => .error (.assertFail "MER.entities must be a list")
  | _ => .error (.assertFail "MER must be a dictionary")

/-! ### `src/projectors/prisma/to_prisma.py`

The projector reads its MER from JSON and accesses `rel['from']`, `rel['to']`,
`rel['type']` and `entity['name']`, `attr['name']` with mandatory indexing, so
its relationship view has mandatory fields.  `generate_models` builds one flat
list of output lines; the embedding produces that list (the final
`"\n".join(result)` is a bijective renaming and is left to the caller). -/

/-- A relationship as consumed by the projector. -/
structure PRel where
  pfrom : String
  pto : String
  ptype : String
  fk : Option FKDesc
deriving DecidableEq

/-- `to_snake_case`, indexed loop: an underscore before every uppercase
character except at position 0, all characters lowercased. -/
def to_snake_aux : Nat → List Char → List Char
  | _, [] => []
  | i, c :: cs =>
    (if c.isUpper ∧ i > 0 then ['_', c.toLower] else [c.toLower]) ++ to_snake_aux (i + 1) cs

/-- `to_snake_case(name)` (to_prisma.py, lines 67–74). -/
def to_snake_case (name : String) : String := (to_snake_aux 0 name.toList).asString

/-- The `type_mapping` dict of `map_type_with_db_constraints`, verbatim:
logical type ↦ (Prisma type, database constraint decorator). -/
def type_mapping : List (String × String × String) :=
  [("string", "String", "@db.VarChar(255)"),
   ("text", "String", "@db.Text"),
   ("int", "Int", ""),
   ("integer", "Int", ""),
   ("bigint", "BigInt", ""),
   ("float", "Float", ""),
   ("decimal", "Decimal", "@db.Decimal(10,2)"),
   ("boolean", "Boolean", ""),
   ("bool", "Boolean", ""),
   ("date", "DateTime", "@db.Date"),
   ("datetime", "DateTime", "@db.Timestamptz(6)"),
   ("timestamp", "DateTime", "@db.Timestamptz(6)"),
   ("uuid", "String", "@db.Uuid"),
   ("cuid", "String", ""),
   ("json", "Json", "@db.JsonB"),
   ("email", "String", "@db.VarChar(255)"),
   ("url", "String", "@db.VarChar(500)")]

/-- `map_type_with_db_constraints(type_str, attr_name)` (lines 17–64): table
lookup on the lowercased logical type (falsy — empty/`None` — types count as
`"string"`; unknown types default to `String @db.VarChar(255)`), then the
attribute-name-based overrides, in source order: `id`-suffixed names, then
the `password`/`email`/`name`/`description`/timestamp-name chain. -/
def map_type_with_db_constraints (typeStr : String) (attrName : String) : String × String :=
  let baseType := if typeStr = "" then "string" else lowerStr typeStr
  let r0 := (dlookup baseType type_mapping).getD ("String", "@db.VarChar(255)")
  let low := lowerStr attrName
  let r1 := if low = "id" ∨ endsWithStr low "id" then ("String", "@db.Uuid") else r0
  if containsSub low "password" then ("String", "@db.VarChar(255)")
  else if containsSub low "email" then ("String", "@db.VarChar(255)")
  else if containsSub low "name" then ("String", "@db.VarChar(255)")
  else if containsSub low "description" then ("String", "@db.Text")
  else if low = "createdat" ∨ low = "created_at" then ("DateTime", "@db.Timestamptz(6)")
  else if low = "updatedat" ∨ low = "updated_at" then ("DateTime", "@db.Timestamptz(6)")
  else if low = "deletedat" ∨ low = "deleted_at" then ("DateTime", "@db.Timestamptz(6)")
  else r1

/-- One entry of `rel_map`: the per-relationship record built at lines
226–240, with the fk-descriptor defaults `f"{to_entity.lower()}Id"` and
`fk_info.get('ref', 'User.id').split('.')[-1]`. -/
structure RelInfo where
  rto : String
  rtype : String
  fk_attribute : String
  ref_field : String
deriving DecidableEq

/-- Python `s.split('.')[-1]`: the (possibly empty) suffix after the last
dot — the characters following the final `'.'`, or the whole string when no
dot occurs. -/
def lastDotSegment (s : String) : String :=
  ((s.toList.reverse.takeWhile (fun c => c ≠ '.')).reverse).asString

/-- The `rel_map` entry for one relationship (lines 228–240).
`fk_info = rel.get('fk', {})`, so a missing descriptor or missing field falls
back to the defaults. -/
def relInfoOf (rel : PRel) : RelInfo :=
  { rto := rel.pto,
    rtype := rel.ptype,
    fk_attribute := (rel.fk.bind FKDesc.fkAttr).getD (lowerStr rel.pto ++ "Id"),
    ref_field := lastDotSegment ((rel.fk.bind FKDesc.ref).getD "User.id") }

/-- `rel_map.setdefault`-style insertion: append the value to the existing
key's list, or add a new key at the end. -/
def relMapInsert (m : List (String × List RelInfo)) (k : String) (v : RelInfo) :
    List (String × List RelInfo) :=
  match dlookup k m with
  | some l => dictSet m k (l ++ [v])
  | none => m ++ [(k, [v])]

/-- The `rel_map` built by the first loop of `generate_models` (lines
226–240), keyed by from-entity. -/
def buildRelMap (relationships : List PRel) : List (String × List RelInfo) :=
  relationships.foldl (fun m rel => relMapInsert m rel.pfrom (relInfoOf rel)) []

/-- Python `" ".join`. -/
def joinSpace (parts : List String) : String := String.intercalate " " parts

/-- One regular attribute line of a model (lines 247–281): mapped type,
optional `?`, then the decorators in source order — primary key, unique,
default (bare for `now()`/`true`/`false`, quoted otherwise, skipped for
primary keys and falsy defaults), snake-case `@map` when it differs from the
lowercased name, and the database constraint. -/
def attrLine (attr : Attribute) : String :=
  let ti := map_type_with_db_constraints (attr.atype.getD "string") attr.name
  let attrType := ti.1 ++ (if attr.nullable then "?" else "")
  let decorators : List String :=
    (if attr.pk then ["@id", "@default(uuid())"] else [])
    ++ (if attr.unique then ["@unique"] else [])
    ++ (match attr.dflt with
        | some d =>
          if d ≠ "" ∧ ¬ attr.pk then
            if d = "now()" ∨ d = "true" ∨ d = "false" then ["@default(" ++ d ++ ")"]
            else ["@default(\"" ++ d ++ "\")"]
          else []
        | none => [])
    ++ (let sn := to_snake_case attr.name
        if sn ≠ lowerStr attr.name then ["@map(\"" ++ sn ++ "\")"] else [])
    ++ (if ti.2 ≠ "" then [ti.2] else [])
  "  " ++ attr.name ++ " " ++ attrType
    ++ (if decorators.isEmpty then "" else " " ++ joinSpace decorators)

/-- The synthesized foreign-key line (lines 293–296): always typed `String`
with `@db.Uuid`, with a snake-case `@map` when the snake form differs from
the lowercased name. -/
def fkLine (fk_attr : String) : String :=
  let snake_fk := to_snake_case fk_attr
  "  " ++ fk_attr ++ " String"
    ++ (if snake_fk ≠ lowerStr fk_attr then " @map(\"" ++ snake_fk ++ "\")" else "")
    ++ " @db.Uuid"

/-- The relation field line (lines 298–300). -/
def relationFieldLine (ri : RelInfo) : String :=
  "  " ++ lowerStr ri.rto ++ " " ++ ri.rto ++ " @relation(fields: [" ++ ri.fk_attribute
    ++ "], references: [" ++ ri.ref_field ++ "])"

/-- The lines emitted for one outgoing relationship of an entity (lines
286–300): the foreign-key attribute when no attribute of that name already
exists, then the relation field. -/
def relLines (entity : Entity) (ri : RelInfo) : List String :=
  (if (entity.attributes?.getD []).any (fun a => a.name = ri.fk_attribute) then []
   else [fkLine ri.fk_attribute])
  ++ [relationFieldLine ri]

/-- The outgoing-relationships block of one model (lines 284–300): present —
preceded by a blank line — exactly when the entity's name is a `rel_map`
key. -/
def relBlock (relMap : List (String × List RelInfo)) (entity : Entity) : List String :=
  match dlookup entity.name relMap with
  | none => []
  | some rs => "" :: rs.flatMap (relLines entity)

/-- The reverse collection line emitted on some model for the pointing entity
`other` (line 309–310): `f"  {other['name'].lower()}s {other['name']}[]"`. -/
def reverseLine (otherName : String) : String :=
  "  " ++ lowerStr otherName ++ "s " ++ otherName ++ "[]"

/-- The reverse-relationship rows for the model named `name` (lines 302–310):
one row per entry of any entity's `rel_map` list whose target is `name` —
with no filtering on the relationship type and no de-duplication. -/
def reverseRows (relMap : List (String × List RelInfo)) (entities : List Entity)
    (name : String) : List String :=
  entities.flatMap (fun other =>
    match dlookup other.name relMap with
    | none => []
    | some rs => (rs.filter (fun ri => ri.rto = name)).map (fun _ => reverseLine other.name))

/-- The reverse-relationships block (lines 302–314): the rows, preceded by a
blank line when non-empty. -/
def reverseBlock (relMap : List (String × List RelInfo)) (entities : List Entity)
    (name : String) : List String :=
  let rows := reverseRows relMap entities name
  if rows.isEmpty then [] else "" :: rows

/-- One standard audit field record (`generate_standard_fields`, lines
77–103). -/
structure StdField where
  name : String
  ftype : String
  nullable : Bool
  dflt : Option String
  updAt : Bool
  fmap : Option String
  db : Option String
deriving DecidableEq

/-- `generate_standard_fields()` verbatim. -/
def generate_standard_fields : List StdField :=
  [{ name := "createdAt", ftype := "DateTime", nullable := false, dflt := some "now()",
     updAt := false, fmap := some "created_at", db := some "@db.Timestamptz(6)" },
   { name := "updatedAt", ftype := "DateTime", nullable := false, dflt := none,
     updAt := true, fmap := some "updated_at", db := some "@db.Timestamptz(6)" },
   { name := "deletedAt", ftype := "DateTime", nullable := true, dflt := none,
     updAt := false, fmap := some "deleted_at", db := some "@db.Timestamptz(6)" }]

/-- The line emitted for one standard audit field (lines 323–339). -/
def stdFieldLine (f : StdField) : String :=
  let decorators : List String :=
    (match f.dflt with
     | some d => if d ≠ "" then
         (if d = "now()" then ["@default(now())"] else ["@default(" ++ d ++ ")"]) else []
     | none => [])
    ++ (if f.updAt then ["@updatedAt"] else [])
    ++ (match f.fmap with
        | some mp => if mp ≠ "" then ["@map(\"" ++ mp ++ "\")"] else []
        | none => [])
    ++ (match f.db with
        | some d => if d ≠ "" then [d] else []
        | none => [])
  "  " ++ f.name ++ " " ++ f.ftype ++ (if f.nullable then "?" else "")
    ++ (if decorators.isEmpty then "" else " " ++ joinSpace decorators)

/-- The audit-fields block (lines 316–339): appended — preceded by a blank
line — unless some attribute is already named `createdAt`, `updatedAt` or
`deletedAt`. -/
def auditBlock (entity : Entity) : List String :=
  if (entity.attributes?.getD []).any
      (fun a => a.name = "createdAt" ∨ a.name = "updatedAt" ∨ a.name = "deletedAt") then []
  else "" :: generate_standard_fields.map stdFieldLine

/-- All lines of one `model` block (lines 242–346). -/
def modelLines (relMap : List (String × List RelInfo)) (entities : List Entity)
    (entity : Entity) : List String :=
  ("model " ++ entity.name ++ " \x7b")
    :: (entity.attributes?.getD []).map attrLine
    ++ relBlock relMap entity
    ++ reverseBlock relMap entities entity.name
    ++ auditBlock entity
    ++ ["", "  @@map(\"" ++ to_snake_case entity.name ++ "\")", "\x7d", ""]

/-- `generate_models(entities, relationships)` (lines 221–348) as its list of
output lines. -/
def generate_models (entities : List Entity) (relationships : List PRel) : List String :=
  let relMap := buildRelMap relationships
  entities.flatMap (modelLines relMap entities)

/-! ### Auxiliary predicates and concrete instances used by the statements -/

/-- First character (if any) is ASCII alphanumeric.  The entity-name
normalizer is idempotent exactly on such strings. -/
def entOk (s : String) : Bool :=
  match s.toList with
  | [] => true
  | c :: _ => c.isAlphanum

/-- All characters are ASCII alphanumeric.  The attribute-name normalizer is
idempotent on such strings. -/
def attrOk (s : String) : Bool := s.toList.all Char.isAlphanum

/-- The document rules of kind `cardinality` whose `(from, to)` pair matches
the relationship, in list order. -/
def matchedRules (rel : Relationship) (doc_rules : List Rule) : List Rule :=
  doc_rules.filter (cardMatches rel)

/-- Left-to-right overlay of the `type` fields of a rule list over an initial
optional type: each rule with a `type` overwrites, rules without one keep the
current value. -/
def overlayType (t0 : Option String) (ms : List Rule) : Option String :=
  ms.foldl (fun t u => match u.rtype with | some x => some x | none => t) t0

/-- The attribute-name conditions that make `map_type_with_db_constraints`
override the table result (the `id` suffix check and the
password/email/name/description/timestamp chain). -/
def nameOverridden (attrName : String) : Prop :=
  let low := lowerStr attrName
  (low = "id" ∨ endsWithStr low "id")
  ∨ containsSub low "password" = true
  ∨ containsSub low "email" = true
  ∨ containsSub low "name" = true
  ∨ containsSub low "description" = true
  ∨ low = "createdat" ∨ low = "created_at"
  ∨ low = "updatedat" ∨ low = "updated_at"
  ∨ low = "deletedat" ∨ low = "deleted_at"

instance (s : String) : Decidable (nameOverridden s) := by
  unfold nameOverridden
  exact inferInstance

/-- The pure table part of the type mapping: lookup of the lowercased
(falsy-defaulted) logical type, unknown types defaulting to
`String @db.VarChar(255)`. -/
def tableLookupResult (typeStr : String) : String × String :=
  (dlookup (if typeStr = "" then "string" else lowerStr typeStr) type_mapping).getD
    ("String", "@db.VarChar(255)")

/-- Is this JSON value a dict? (an attribute element the validator's pk scan
can read). -/
def attrDictOk : JVal → Bool
  | .jobj _ => true
  | _ => false

/-- Truthiness of `a.get("pk")` for a dict attribute (false for non-dicts). -/
def pkTruthyB : JVal → Bool
  | .jobj kvs => truthy ((dlookup "pk" kvs).getD .jnull)
  | _ => false

/-- Spec-side predicate: the entity is a dict whose `attributes` default
`.get("attributes", [])` is a list of dicts — the shape on which the
validator's pk scan cannot raise. -/
def entityDeepOk : JVal → Bool
  | .jobj kvs =>
    match (dlookup "attributes" kvs).getD (.jarr []) with
    | .jarr xs => xs.all attrDictOk
    | _ => false
  | _ => false

/-- Spec-side predicate: the entity has at least one attribute with a truthy
primary-key flag. -/
def entityHasPk : JVal → Bool
  | .jobj kvs =>
    match (dlookup "attributes" kvs).getD (.jarr []) with
    | .jarr xs => xs.any pkTruthyB
    | _ => false
  | _ => false

/-- Spec-side predicate (from the claim's parenthetical): the MER is a dict
and `entities` and `relationships` are present and are lists. -/
def containerOk : JVal → Bool
  | .jobj kvs =>
    (match dlookup "entities" kvs with | some (.jarr _) => true | _ => false)
    && (match dlookup "relationships" kvs with | some (.jarr _) => true | _ => false)
  | _ => false

/-! Concrete instances for counterexamples and witnesses. -/

/-- A MER whose single entity has the attribute `first_name`. -/
def c1Mer : Mer :=
  { entities := [{ name := "E",
                   attributes? := some [{ name := "first_name", atype := none, pk := true,
                                          unique := false, nullable := false, dflt := none }],
                   sources := [], confidence := none }],
    relationships := [], enums := [], open_questions := [] }

/-- A well-behaved MER: alphanumeric-first entity names, alphanumeric
attribute names, a relationship with present endpoints. -/
def c1GoodMer : Mer :=
  { entities := [{ name := "User",
                   attributes? := some [{ name := "id", atype := some "uuid", pk := true,
                                          unique := false, nullable := false, dflt := none }],
                   sources := ["figma:n1"], confidence := some (9/10) }],
    relationships := [{ rfrom := some "Order", rto := some "User",
                        rtype := some "many-to-one",
                        fk := some { fkAttr := some "userId", ref := some "User.id" },
                        sources := [] }],
    enums := [], open_questions := [] }

/-- A parser accepting exactly the text `"GOOD"` (as `json.loads` accepts
valid JSON of the expected shape and raises otherwise). -/
def c2Parse : String → Except String PassResult :=
  fun s => if s = "GOOD" then .ok { entities := [], relationships := [], open_questions := [] }
           else .error "Expecting value"

/-- A model that returns an empty first response and a valid second one. -/
def c2Responses : Nat → String := fun n => if n = 0 then "" else "GOOD"

/-- The empty pass result. -/
def emptyPass : PassResult := { entities := [], relationships := [], open_questions := [] }

/-- An entity whose attribute list holds a non-dict element *before* a
pk-flagged attribute dict. -/
def c3MixedEnt : JVal :=
  .jobj [("name", .jstr "User"),
         ("attributes", .jarr [.jnum 42, .jobj [("pk", .jbool true)]])]

/-- The key-value pairs of a structurally well-formed MER around
`c3MixedEnt`. -/
def c3MixedKvs : List (String × JVal) :=
  [("entities", .jarr [c3MixedEnt]), ("relationships", .jarr [])]

/-- A structurally well-formed MER whose single entity's attribute list holds
a non-dict element *before* a pk-flagged attribute dict. -/
def c3Mixed : JVal := .jobj c3MixedKvs

/-- One well-shaped pk-flagged entity. -/
def c3GoodEnts : List JVal :=
  [.jobj [("name", .jstr "User"),
          ("attributes", .jarr [.jobj [("name", .jstr "id"), ("pk", .jbool true)]])]]

/-- The key-value pairs of a well-formed MER with one pk-flagged entity. -/
def c3GoodKvs : List (String × JVal) :=
  [("entities", .jarr c3GoodEnts), ("relationships", .jarr [])]

/-- The relationship of the cardinality-resolver example. -/
def c4Rel : Relationship :=
  { rfrom := some "Order", rto := some "User", rtype := some "one-to-many",
    fk := none, sources := [] }

/-- The document rule of the cardinality-resolver example. -/
def c4Rule : Rule :=
  { kind := some "cardinality", rfrom := some "Order", rto := some "User",
    rtype := some "many-to-one", sources := ["doc:x"] }

/-- The `id` attribute used in the merger example. -/
def c5IdAttr : Attribute :=
  { name := "id", atype := some "uuid", pk := true, unique := false,
    nullable := false, dflt := none }

/-- The `User` entity as returned by the entities pass (confidence 0.6). -/
def c5UserE : Entity :=
  { name := "User", attributes? := some [], sources := ["figma:n1"],
    confidence := some (6/10) }

/-- The `User` entity as returned by the attributes pass (confidence 0.9). -/
def c5UserA : Entity :=
  { name := "User", attributes? := some [c5IdAttr], sources := ["doc:d1"],
    confidence := some (9/10) }

/-- An entity present only in the attributes pass. -/
def c5OrderA : Entity :=
  { name := "Order", attributes? := some [], sources := [], confidence := some (1/2) }

/-- Entities-pass output: one `User` entity with confidence 0.6. -/
def c5EPass : PassResult :=
  { entities := [c5UserE], relationships := [], open_questions := [] }

/-- Attributes-pass output: `User` with an attribute list and confidence 0.9,
plus an entity `Order` absent from the entities pass. -/
def c5APass : PassResult :=
  { entities := [c5UserA, c5OrderA], relationships := [], open_questions := [] }

/-- An empty context pack `documents` section. -/
def emptyCtx : Ctx := { rules := [], enums := [] }

/-- `User` with a pk `id` attribute, for the projector examples. -/
def cUserEnt : Entity :=
  { name := "User",
    attributes? := some [{ name := "id", atype := some "uuid", pk := true,
                           unique := false, nullable := false, dflt := none }],
    sources := [], confidence := none }

/-- `Order` with a pk `id` attribute. -/
def cOrderEnt : Entity :=
  { name := "Order",
    attributes? := some [{ name := "id", atype := some "uuid", pk := true,
                           unique := false, nullable := false, dflt := none }],
    sources := [], confidence := none }

/-- The relationship `{from: "Order", to: "User", type: "many-to-one"}` with
no fk descriptor. -/
def cOrderUserRel : PRel :=
  { pfrom := "Order", pto := "User", ptype := "many-to-one", fk := none }

/-- `User` carrying an `int`-typed attribute `age`, referenced by the fk of
`c8Rel`. -/
def c8UserEnt : Entity :=
  { name := "User",
    attributes? := some [{ name := "id", atype := some "uuid", pk := true,
                           unique := false, nullable := false, dflt := none },
                         { name := "age", atype := some "int", pk := false,
                           unique := false, nullable := false, dflt := none }],
    sources := [], confidence := none }

/-- A relationship whose fk references the `int`-typed `User.age`. -/
def c8Rel : PRel :=
  { pfrom := "Order", pto := "User", ptype := "many-to-one",
    fk := some { fkAttr := some "ownerId", ref := some "User.age" } }

/-- Entities pass with two distinct names that normalize to the same
canonical name. -/
def c9EPass : PassResult :=
  { entities := [{ name := "User", attributes? := some [], sources := [], confidence := none },
                 { name := "user", attributes? := some [], sources := [], confidence := none }],
    relationships := [], open_questions := [] }

/-! Normal forms computed by one successful `unify_naming` pass (proof
devices for the idempotence analysis). -/

/-- The attribute produced by a successful `normalize_attr_name` on an
all-alphanumeric name: the name is lowercased. -/
def attrNormed (a : Attribute) : Attribute := { a with name := lowerStr a.name }

/-- The entity produced by one `unify_naming` pass with an empty glossary on
an entity whose attribute names are all alphanumeric. -/
def entNormed (e : Entity) : Entity :=
  { e with name := normalize_entity_name e.name,
           attributes? := e.attributes?.map (List.map attrNormed) }

/-- The fk descriptor produced by a successful `unifyFk` when the attribute
(if any, non-empty) is all-alphanumeric. -/
def relNormedFk : Option FKDesc → Option FKDesc
  | none => none
  | some fkd =>
    match fkd.fkAttr with
    | some a => if a ≠ "" then some { fkd with fkAttr := some (lowerStr a) } else some fkd
    | none => some fkd

/-- The relationship produced by one `unify_naming` pass with an empty
glossary when the endpoints are present. -/
def relNormed (r : Relationship) : Relationship :=
  { r with rfrom := r.rfrom.map normalize_entity_name,
           rto := r.rto.map normalize_entity_name,
           fk := relNormedFk r.fk }

/-- The MER produced by one successful `unify_naming` pass with an empty
glossary. -/
def merNormed (m : Mer) : Mer :=
  { m with entities := m.entities.map entNormed,
           relationships := m.relationships.map relNormed }

/-! ## Helper lemmas: ASCII case mapping -/

theorem char_toUpper_def (c : Char) :
    c.toUpper = if c.toNat ≥ 97 ∧ c.toNat ≤ 122 then Char.ofNat (c.toNat - 32) else c := rfl

theorem char_toLower_def (c : Char) :
    c.toLower = if c.toNat ≥ 65 ∧ c.toNat ≤ 90 then Char.ofNat (c.toNat + 32) else c := rfl

theorem char_ofNat_sub32_isAlphanum (n : Nat) (h1 : 97 ≤ n) (h2 : n ≤ 122) :
    (Char.ofNat (n - 32)).isAlphanum = true := by
  interval_cases n <;> decide

theorem char_ofNat_add32_isAlphanum (n : Nat) (h1 : 65 ≤ n) (h2 : n ≤ 90) :
    (Char.ofNat (n + 32)).isAlphanum = true := by
  interval_cases n <;> decide

theorem char_ofNat_sub32_toUpper (n : Nat) (h1 : 97 ≤ n) (h2 : n ≤ 122) :
    (Char.ofNat (n - 32)).toUpper = Char.ofNat (n - 32) := by
  interval_cases n <;> decide

theorem char_ofNat_add32_toLower (n : Nat) (h1 : 65 ≤ n) (h2 : n ≤ 90) :
    (Char.ofNat (n + 32)).toLower = Char.ofNat (n + 32) := by
  interval_cases n <;> decide

theorem char_toUpper_isAlphanum {c : Char} (h : c.isAlphanum = true) :
    c.toUpper.isAlphanum = true := by
  rw [char_toUpper_def]
  split
  · next hc => exact char_ofNat_sub32_isAlphanum _ hc.1 hc.2
  · exact h

theorem char_toLower_isAlphanum {c : Char} (h : c.isAlphanum = true) :
    c.toLower.isAlphanum = true := by
  rw [char_toLower_def]
  split
  · next hc => exact char_ofNat_add32_isAlphanum _ hc.1 hc.2
  · exact h

theorem char_toUpper_toUpper (c : Char) : c.toUpper.toUpper = c.toUpper := by
  rw [char_toUpper_def c]
  split
  · next hc => exact char_ofNat_sub32_toUpper _ hc.1 hc.2
  · next hc => rw [char_toUpper_def c, if_neg hc]

theorem char_toLower_toLower (c : Char) : c.toLower.toLower = c.toLower := by
  rw [char_toLower_def c]
  split
  · next hc => exact char_ofNat_add32_toLower _ hc.1 hc.2
  · next hc => rw [char_toLower_def c, if_neg hc]

/-! ## Helper lemmas: strings as character lists -/

theorem toList_asString (l : List Char) : l.asString.toList = l := rfl

theorem toList_eq_nil_iff {s : String} : s.toList = [] ↔ s = "" := by
  constructor
  · intro h
    cases s with
    | mk data =>
      simp only [String.toList] at h
      simp [h]
  · intro h
    subst h
    rfl

theorem lowerStr_toList (s : String) : (lowerStr s).toList = s.toList.map Char.toLower := rfl

theorem lowerStr_ne_empty {s : String} (h : s ≠ "") : lowerStr s ≠ "" := by
  intro hc
  apply h
  rw [← toList_eq_nil_iff] at hc ⊢
  rw [lowerStr_toList] at hc
  exact List.map_eq_nil_iff.mp hc

theorem lowerStr_lowerStr (s : String) : lowerStr (lowerStr s) = lowerStr s := by
  unfold lowerStr
  rw [toList_asString, List.map_map]
  congr 1
  apply List.map_congr_left
  intro c _
  exact char_toLower_toLower c

theorem attrOk_lowerStr {s : String} (h : attrOk s = true) : attrOk (lowerStr s) = true := by
  unfold attrOk at h ⊢
  rw [lowerStr_toList, List.all_map]
  simp only [List.all_eq_true] at h ⊢
  intro c hc
  exact char_toLower_isAlphanum (h c hc)

theorem filter_idem {α : Type} (p : α → Bool) (l : List α) :
    (l.filter p).filter p = l.filter p := by
  induction l with
  | nil => rfl
  | cons x xs ih =>
    by_cases hx : p x <;> simp [List.filter_cons, hx, ih]

/-! ## Helper lemmas: the two name normalizers -/

theorem alnumRunsAux_all_alnum {s : List Char} (h : ∀ c ∈ s, c.isAlphanum = true) :
    ∀ cur : List Char, alnumRunsAux s cur =
      if (cur.reverse ++ s).isEmpty then [] else [cur.reverse ++ s] := by
  induction s with
  | nil =>
    intro cur
    simp [alnumRunsAux]
  | cons c cs ih =>
    intro cur
    have hc : c.isAlphanum = true := h c (by simp)
    rw [alnumRunsAux, if_pos hc, ih (fun d hd => h d (by simp [hd])) (c :: cur)]
    simp

theorem alnumRuns_all_alnum {s : List Char} (hne : s ≠ [])
    (h : ∀ c ∈ s, c.isAlphanum = true) : alnumRuns s = [s] := by
  unfold alnumRuns
  rw [alnumRunsAux_all_alnum h []]
  simp [hne]

theorem normalize_attr_name_alnum {s : String} (h : attrOk s = true) :
    normalize_attr_name s = some (lowerStr s) := by
  unfold normalize_attr_name
  by_cases hs : s = ""
  · subst hs
    rfl
  · rw [if_neg hs]
    have hne : s.toList ≠ [] := fun hc => hs (toList_eq_nil_iff.mp hc)
    have hall : ∀ c ∈ s.toList, c.isAlphanum = true := by
      unfold attrOk at h
      simpa [List.all_eq_true] using h
    rw [alnumRuns_all_alnum hne hall]
    simp [lowerStr]

theorem normalize_attr_name_idem {t : String} (ht : attrOk t = true) :
    (normalize_attr_name t).bind normalize_attr_name = normalize_attr_name t := by
  rw [normalize_attr_name_alnum ht]
  show normalize_attr_name (lowerStr t) = some (lowerStr t)
  rw [normalize_attr_name_alnum (attrOk_lowerStr ht), lowerStr_lowerStr]

theorem normalize_entity_name_idem {s : String} (h : entOk s = true) :
    normalize_entity_name (normalize_entity_name s) = normalize_entity_name s := by
  cases hls : s.toList with
  | nil =>
    have hs : s = "" := toList_eq_nil_iff.mp hls
    subst hs
    rfl
  | cons c cs =>
    have hc : c.isAlphanum = true := by
      have h' := h
      unfold entOk at h'
      rw [hls] at h'
      simpa using h'
    have hup : c.toUpper.isAlphanum = true := char_toUpper_isAlphanum hc
    unfold normalize_entity_name
    rw [toList_asString, hls]
    simp [upperFirst, List.filter_cons, hup, char_toUpper_toUpper, filter_idem]

/-! ## Helper lemmas: one `unify_naming` pass computes the normal form -/

theorem attrNormed_idem (a : Attribute) : attrNormed (attrNormed a) = attrNormed a := by
  cases a
  simp [attrNormed, lowerStr_lowerStr]

theorem map_attrNormed_idem (l : List Attribute) :
    List.map attrNormed (List.map attrNormed l) = List.map attrNormed l := by
  rw [List.map_map]
  apply List.map_congr_left
  intro a _
  exact attrNormed_idem a

theorem unifyAttrs_eq {attrs : List Attribute}
    (h : ∀ a ∈ attrs, attrOk a.name = true) :
    unifyAttrs attrs = some (attrs.map attrNormed) := by
  induction attrs with
  | nil => rfl
  | cons a rest ih =>
    have ha := h a (by simp)
    have hrest := ih (fun x hx => h x (by simp [hx]))
    simp [unifyAttrs, normalize_attr_name_alnum ha, hrest, attrNormed]

theorem unifyEntities_nil_eq {ents : List Entity}
    (h : ∀ e ∈ ents, ∀ a ∈ e.attributes?.getD [], attrOk a.name = true) :
    unifyEntities [] ents = some (ents.map entNormed) := by
  induction ents with
  | nil => rfl
  | cons e rest ih =>
    have hrest := ih (fun x hx a hax => h x (by simp [hx]) a hax)
    cases hattr : e.attributes? with
    | none =>
      simp [unifyEntities, apply_aliases, hattr, hrest, entNormed]
    | some attrs =>
      have he : ∀ a ∈ attrs, attrOk a.name = true := by
        intro a hax
        exact h e (by simp) a (by simp [hattr, hax])
      simp [unifyEntities, apply_aliases, hattr, hrest, unifyAttrs_eq he, entNormed]

theorem unifyFk_eq {fk : Option FKDesc}
    (h : ∀ fkd a, fk = some fkd → fkd.fkAttr = some a → attrOk a = true) :
    unifyFk fk = some (relNormedFk fk) := by
  cases fk with
  | none => rfl
  | some fkd =>
    cases hfa : fkd.fkAttr with
    | none => simp [unifyFk, relNormedFk, hfa]
    | some a =>
      by_cases ha : a = ""
      · simp [unifyFk, relNormedFk, hfa, ha]
      · have hok := h fkd a rfl hfa
        simp [unifyFk, relNormedFk, hfa, ha, normalize_attr_name_alnum hok]

theorem relNormedFk_idem (fk : Option FKDesc) :
    relNormedFk (relNormedFk fk) = relNormedFk fk := by
  cases fk with
  | none => rfl
  | some fkd =>
    cases hfa : fkd.fkAttr with
    | none => simp [relNormedFk, hfa]
    | some a =>
      by_cases ha : a = ""
      · simp [relNormedFk, hfa, ha]
      · simp [relNormedFk, hfa, ha, lowerStr_ne_empty ha, lowerStr_lowerStr]

theorem relNormedFk_cond {fk : Option FKDesc}
    (h : ∀ fkd a, fk = some fkd → fkd.fkAttr = some a → attrOk a = true) :
    ∀ fkd a, relNormedFk fk = some fkd → fkd.fkAttr = some a → attrOk a = true := by
  cases fk with
  | none => intro fkd a hc; simp [relNormedFk] at hc
  | some fkd0 =>
    cases hfa : fkd0.fkAttr with
    | none =>
      intro fkd a hc hfa'
      simp [relNormedFk, hfa] at hc
      subst hc
      rw [hfa] at hfa'
      cases hfa'
    | some a0 =>
      by_cases ha : a0 = ""
      · intro fkd a hc hfa'
        simp [relNormedFk, hfa, ha] at hc
        subst hc
        rw [hfa] at hfa'
        cases hfa'
        subst ha
        rfl
      · intro fkd a hc hfa'
        simp [relNormedFk, hfa, ha] at hc
        subst hc
        simp at hfa'
        subst hfa'
        exact attrOk_lowerStr (h fkd0 a0 rfl hfa)

theorem unifyRels_nil_eq {rels : List Relationship}
    (h : ∀ r ∈ rels, (∃ f, r.rfrom = some f) ∧ (∃ u, r.rto = some u) ∧
         (∀ fkd a, r.fk = some fkd → fkd.fkAttr = some a → attrOk a = true)) :
    unifyRels [] rels = some (rels.map relNormed) := by
  induction rels with
  | nil => rfl
  | cons r rest ih =>
    obtain ⟨⟨f, hf⟩, ⟨u, hu⟩, hfk⟩ := h r (by simp)
    have hrest := ih (fun x hx => h x (by simp [hx]))
    simp [unifyRels, hf, hu, apply_aliases, unifyFk_eq hfk, hrest, relNormed]

theorem entNormed_idem {e : Entity} (h : entOk e.name = true) :
    entNormed (entNormed e) = entNormed e := by
  cases e with
  | mk name attrs? sources confidence =>
    simp only [entNormed] at *
    simp [normalize_entity_name_idem h]
    cases attrs? with
    | none => simp
    | some val =>
      simp
      intro a _
      exact attrNormed_idem a

theorem relNormed_idem {r : Relationship}
    (hf : ∀ f, r.rfrom = some f → entOk f = true)
    (hu : ∀ u, r.rto = some u → entOk u = true) :
    relNormed (relNormed r) = relNormed r := by
  cases r with
  | mk rfrom rto rtype fk sources =>
    simp only [relNormed] at *
    simp [relNormedFk_idem]
    constructor
    · cases rfrom with
      | none => simp
      | some f => simp [normalize_entity_name_idem (hf f rfl)]
    · cases rto with
      | none => simp
      | some u => simp [normalize_entity_name_idem (hu u rfl)]

theorem unify_naming_nil_norm {m : Mer}
    (hent : ∀ e ∈ m.entities,
      entOk e.name = true ∧ ∀ a ∈ e.attributes?.getD [], attrOk a.name = true)
    (hrel : ∀ r ∈ m.relationships,
      (∃ f, r.rfrom = some f ∧ entOk f = true) ∧ (∃ u, r.rto = some u ∧ entOk u = true) ∧
      (∀ fkd a, r.fk = some fkd → fkd.fkAttr = some a → attrOk a = true)) :
    unify_naming m [] = some (merNormed m) ∧
    unify_naming (merNormed m) [] = some (merNormed m) := by
  have hE1 : unifyEntities [] m.entities = some (m.entities.map entNormed) :=
    unifyEntities_nil_eq (fun e he a ha => (hent e he).2 a ha)
  have hR1 : unifyRels [] m.relationships = some (m.relationships.map relNormed) :=
    unifyRels_nil_eq (fun r hr =>
      ⟨(hrel r hr).1.imp (fun _ hf => hf.1), (hrel r hr).2.1.imp (fun _ hu => hu.1),
       (hrel r hr).2.2⟩)
  have hE2cond : ∀ e' ∈ m.entities.map entNormed,
      ∀ a ∈ e'.attributes?.getD [], attrOk a.name = true := by
    intro e' he' a ha
    obtain ⟨e, he, rfl⟩ := List.mem_map.mp he'
    cases hattr : e.attributes? with
    | none => simp [entNormed, hattr] at ha
    | some l =>
      simp only [entNormed, hattr, Option.map_some, Option.getD_some] at ha
      obtain ⟨x, hx, rfl⟩ := List.mem_map.mp ha
      exact attrOk_lowerStr ((hent e he).2 x (by simp [hattr, hx]))
  have hE2 := unifyEntities_nil_eq hE2cond
  have hmapE : (m.entities.map entNormed).map entNormed = m.entities.map entNormed := by
    rw [List.map_map]
    apply List.map_congr_left
    intro e he
    exact entNormed_idem (hent e he).1
  have hR2cond : ∀ r' ∈ m.relationships.map relNormed,
      (∃ f, r'.rfrom = some f) ∧ (∃ u, r'.rto = some u) ∧
      (∀ fkd a, r'.fk = some fkd → fkd.fkAttr = some a → attrOk a = true) := by
    intro r' hr'
    obtain ⟨r, hr, rfl⟩ := List.mem_map.mp hr'
    obtain ⟨⟨f, hf, hfok⟩, ⟨u, hu, huok⟩, hfk⟩ := hrel r hr
    refine ⟨⟨normalize_entity_name f, by simp [relNormed, hf]⟩,
            ⟨normalize_entity_name u, by simp [relNormed, hu]⟩, ?_⟩
    exact relNormedFk_cond hfk
  have hR2 := unifyRels_nil_eq hR2cond
  have hmapR : (m.relationships.map relNormed).map relNormed = m.relationships.map relNormed := by
    rw [List.map_map]
    apply List.map_congr_left
    intro r hr
    obtain ⟨⟨f, hf, hfok⟩, ⟨u, hu, huok⟩, hfk⟩ := hrel r hr
    exact relNormed_idem
      (fun f' hf' => by rw [hf] at hf'; cases hf'; exact hfok)
      (fun u' hu' => by rw [hu] at hu'; cases hu'; exact huok)
  constructor
  · unfold unify_naming
    rw [hE1, hR1]
    rfl
  · unfold unify_naming
    have he' : unifyEntities [] (merNormed m).entities = some ((merNormed m).entities) := by
      show unifyEntities [] (m.entities.map entNormed) = _
      rw [hE2, hmapE]
      rfl
    have hr' : unifyRels [] (merNormed m).relationships = some ((merNormed m).relationships) := by
      show unifyRels [] (m.relationships.map relNormed) = _
      rw [hR2, hmapR]
      rfl
    rw [he', hr']
    rfl

/-! ## Claim C1 — idempotence of the Naming Normalizer -/

/-- C1 (counterexample): the Naming Normalizer is *not* idempotent.  On the
MER whose single entity has the attribute `first_name` (and empty glossary),
one application yields the attribute name `firstName`, but a second
application lower-cases the interior capital to `firstname`, so applying
`unify_naming` twice differs from applying it once. -/
theorem c1_unify_naming_not_idempotent :
    (unify_naming c1Mer []).map
        (fun m => m.entities.map (fun e => (e.attributes?.getD []).map Attribute.name))
      = some [["firstName"]]
    ∧ ((unify_naming c1Mer []).bind (fun m => unify_naming m [])).map
        (fun m => m.entities.map (fun e => (e.attributes?.getD []).map Attribute.name))
      = some [["firstname"]]
    ∧ (unify_naming c1Mer []).bind (fun m => unify_naming m []) ≠ unify_naming c1Mer [] := by
  refine ⟨by decide, by decide, by decide⟩

/-- C1 (amended): idempotence holds only on restricted inputs.  With an empty
glossary, `unify_naming` is idempotent on every MER whose entity names and
relationship endpoints are present and start with an alphanumeric character
(or are empty) and whose attribute and fk-attribute names are entirely
alphanumeric.  Entity-name canonicalization is idempotent on strings whose
first character is alphanumeric (or empty strings); attribute-name
canonicalization is idempotent on all-alphanumeric strings. -/
theorem c1_unify_naming_conditional_idempotence (m : Mer) (s t : String)
    (hent : ∀ e ∈ m.entities,
      entOk e.name = true ∧ ∀ a ∈ e.attributes?.getD [], attrOk a.name = true)
    (hrel : ∀ r ∈ m.relationships,
      (∃ f, r.rfrom = some f ∧ entOk f = true) ∧ (∃ u, r.rto = some u ∧ entOk u = true) ∧
      (∀ fkd a, r.fk = some fkd → fkd.fkAttr = some a → attrOk a = true))
    (hs : entOk s = true) (ht : attrOk t = true) :
    (∃ m₁, unify_naming m [] = some m₁ ∧ unify_naming m₁ [] = some m₁)
    ∧ normalize_entity_name (normalize_entity_name s) = normalize_entity_name s
    ∧ (normalize_attr_name t).bind normalize_attr_name = normalize_attr_name t := by
  obtain ⟨h1, h2⟩ := unify_naming_nil_norm hent hrel
  exact ⟨⟨merNormed m, h1, h2⟩, normalize_entity_name_idem hs, normalize_attr_name_idem ht⟩

/-- C1 (witness): the conditional idempotence theorem applied to a concrete
well-behaved MER and the concrete strings `"User"` and `"id"`. -/
theorem c1_witness :
    (∃ m₁, unify_naming c1GoodMer [] = some m₁ ∧ unify_naming m₁ [] = some m₁)
    ∧ normalize_entity_name (normalize_entity_name "User") = normalize_entity_name "User"
    ∧ (normalize_attr_name "id").bind normalize_attr_name = normalize_attr_name "id" :=
  c1_unify_naming_conditional_idempotence c1GoodMer "User" "id"
    (by decide)
    (by
      intro r hr
      simp only [c1GoodMer, List.mem_singleton] at hr
      subst hr
      exact ⟨⟨"Order", rfl, by decide⟩, ⟨"User", rfl, by decide⟩,
             fun fkd a hfk hfa => by
               cases hfk
               cases hfa
               decide⟩)
    (by decide) (by decide)

/-! ## Claim C2 — retry-and-fallback behavior of the inference passes -/

/-- C2 (counterexample): the retry-and-fallback behavior is *not* shared by
all three passes.  With a model whose first response is empty and whose
second is valid, the Entities and Relationships passes raise the parse error
of the first response (no retry, no fallback `PartialResult`), while the
Attributes pass on the same inputs retries and succeeds. -/
theorem c2_entities_pass_raises :
    run_entities c2Parse c2Responses = .error "Expecting value"
    ∧ run_relationships c2Parse c2Responses = .error "Expecting value"
    ∧ run_attributes emptyPass c2Parse c2Responses = emptyPass := by
  refine ⟨rfl, rfl, by decide⟩

/-- C2 (amended): only the Attributes pass implements the documented
behavior; for it, the claim holds in full: an empty response is retried once;
a still-empty response yields the fallback reusing the base entity list with
a single `system:llm_error` open question; a non-empty response that fails to
parse yields the fallback with a single `system:json_error` open question;
a successfully parsed response (first or retried) is returned as-is. -/
theorem c2_attributes_retry_fallback (base : PassResult)
    (parse : String → Except String PassResult) (responses : Nat → String) :
    (isBlankStr (responses 0) = true → isBlankStr (responses 1) = true →
      run_attributes base parse responses
        = attrsFallback base
            "LLM returned empty response for attributes. Please review and add attributes manually."
            "system:llm_error")
    ∧ (isBlankStr (responses 0) = true → isBlankStr (responses 1) = false →
        ∀ r, parse (responses 1) = .ok r → run_attributes base parse responses = r)
    ∧ (isBlankStr (responses 0) = false →
        ∀ r, parse (responses 0) = .ok r → run_attributes base parse responses = r)
    ∧ (isBlankStr (responses 0) = false →
        ∀ e, parse (responses 0) = .error e →
          run_attributes base parse responses
            = attrsFallback base
                ("LLM response parsing failed: " ++ e
                  ++ ". Please review and add attributes manually.")
                "system:json_error") := by
  refine ⟨?_, ?_, ?_, ?_⟩
  · intro h0 h1
    simp [run_attributes, h0, h1]
  · intro h0 h1 r hr
    simp [run_attributes, h0, h1, hr]
  · intro h0 r hr
    simp [run_attributes, h0, hr]
  · intro h0 e he
    simp [run_attributes, h0, he]

/-- C2 (witness): the amended theorem applied to an always-empty model: the
Attributes pass returns the empty-response fallback. -/
theorem c2_witness :
    run_attributes emptyPass c2Parse (fun _ => "")
      = attrsFallback emptyPass
          "LLM returned empty response for attributes. Please review and add attributes manually."
          "system:llm_error" :=
  (c2_attributes_retry_fallback emptyPass c2Parse (fun _ => "")).1 (by decide) (by decide)

/-! ## Claim C3 — the basic validator -/

theorem attrDictOk_iff {a : JVal} : attrDictOk a = true ↔ ∃ kvs, a = .jobj kvs := by
  cases a <;> simp [attrDictOk]

theorem except_ok_bind {ε α β : Type} (x : α) (f : α → Except ε β) :
    (Except.ok x : Except ε α) >>= f = f x := rfl

theorem anyPk_all_dicts {xs : List JVal} (h : ∀ a ∈ xs, attrDictOk a = true) :
    anyPk xs = .ok (xs.any pkTruthyB) := by
  induction xs with
  | nil => rfl
  | cons a rest ih =>
    obtain ⟨kvs, rfl⟩ := attrDictOk_iff.mp (h a (List.mem_cons_self a rest))
    have ihr := ih (fun x hx => h x (by simp [hx]))
    by_cases hp : truthy ((dlookup "pk" kvs).getD .jnull) = true
    · simp [anyPk, dictGet, except_ok_bind, hp, pkTruthyB]
    · simp [anyPk, dictGet, except_ok_bind, hp, pkTruthyB, ihr]

theorem entityDeep_decomp {e : JVal} (h : entityDeepOk e = true) :
    ∃ kvs xs, e = .jobj kvs ∧ (dlookup "attributes" kvs).getD (.jarr []) = .jarr xs ∧
      (∀ a ∈ xs, attrDictOk a = true) ∧ entityHasPk e = xs.any pkTruthyB := by
  cases e with
  | jobj kvs =>
    cases hA : (dlookup "attributes" kvs).getD (.jarr []) with
    | jarr xs =>
      refine ⟨kvs, xs, rfl, hA, ?_, ?_⟩
      · have h' := h
        simp only [entityDeepOk, hA] at h'
        simpa [List.all_eq_true] using h'
      · simp [entityHasPk, hA]
    | jnull => simp [entityDeepOk, hA] at h
    | jbool b => simp [entityDeepOk, hA] at h
    | jnum n => simp [entityDeepOk, hA] at h
    | jstr s => simp [entityDeepOk, hA] at h
    | jobj kvs2 => simp [entityDeepOk, hA] at h
  | jnull => simp [entityDeepOk] at h
  | jbool b => simp [entityDeepOk] at h
  | jnum n => simp [entityDeepOk] at h
  | jstr s => simp [entityDeepOk] at h
  | jarr l => simp [entityDeepOk] at h

theorem checkEntities_eq {es : List JVal} (h : ∀ e ∈ es, entityDeepOk e = true) :
    checkEntities es =
      match es.find? (fun e => ! entityHasPk e) with
      | none => .ok ()
      | some e => .error (.assertFail (pkFailMsg e)) := by
  induction es with
  | nil => rfl
  | cons e rest ih =>
    obtain ⟨kvs, xs, rfl, hA, hdicts, hpk⟩ := entityDeep_decomp (h e (by simp))
    have ihr := ih (fun x hx => h x (by simp [hx]))
    by_cases hp : entityHasPk (.jobj kvs) = true
    · have hany : xs.any pkTruthyB = true := by rw [← hpk]; exact hp
      simp [checkEntities, dictGet, hA, except_ok_bind, anyPkOf, anyPk_all_dicts hdicts,
            hany, List.find?_cons, hp, ihr]
    · have hany : xs.any pkTruthyB = false := by
        rw [← hpk]
        exact Bool.eq_false_iff.mpr hp
      simp [checkEntities, dictGet, hA, except_ok_bind, anyPkOf, anyPk_all_dicts hdicts,
            hany, List.find?_cons, hp]

/-- C3 (amended): for a MER that is a dict with `entities`/`relationships`
lists and whose entities are dicts with lists of dict attributes, the
validator accepts iff every entity has a truthy `pk` attribute, and on the
first entity (in order) lacking one it raises the assertion naming that
entity.  When the MER container itself is malformed it raises an assertion.
The original claim's "if and only if" fails for deeper dynamic garbage: the
pk scan traverses the attribute list left to right and raises
`AttributeError` on a non-dict element even when a pk-flagged attribute
occurs later (see the counterexample). -/
theorem c3_validator_characterization (kvs : List (String × JVal)) (es rl : List JVal)
    (hE : dlookup "entities" kvs = some (.jarr es))
    (hR : dlookup "relationships" kvs = some (.jarr rl))
    (hdeep : ∀ e ∈ es, entityDeepOk e = true) :
    (validate_mer_basic (.jobj kvs) = .ok () ↔ ∀ e ∈ es, entityHasPk e = true)
    ∧ (∀ e, es.find? (fun x => ! entityHasPk x) = some e →
        validate_mer_basic (.jobj kvs) = .error (.assertFail (pkFailMsg e)))
    ∧ (∀ v : JVal, containerOk v = false →
        ∃ msg, validate_mer_basic v = .error (.assertFail msg)) := by
  have hval : validate_mer_basic (.jobj kvs) = checkEntities es := by
    simp [validate_mer_basic, hE, hR]
  refine ⟨?_, ?_, ?_⟩
  · rw [hval, checkEntities_eq hdeep]
    cases hfind : es.find? (fun e => ! entityHasPk e) with
    | none =>
      constructor
      · intro _ e he
        have := List.find?_eq_none.mp hfind e he
        simpa using this
      · intro _
        rfl
    | some e =>
      constructor
      · intro hc
        exact absurd hc (by simp)
      · intro hall
        exfalso
        have hmem := List.find?_some hfind
        have hin := List.mem_of_find?_eq_some hfind
        rw [hall e hin] at hmem
        simp at hmem
  · intro e hfind
    rw [hval, checkEntities_eq hdeep, hfind]
  · intro v hv
    cases v with
    | jobj kv =>
      cases hE' : dlookup "entities" kv with
      | none => exact ⟨"MER.entities must be a list", by simp [validate_mer_basic, hE']⟩
      | some ev =>
        cases ev with
        | jarr es' =>
          cases hR' : dlookup "relationships" kv with
          | none =>
            exact ⟨"MER.relationships must be a list", by simp [validate_mer_basic, hE', hR']⟩
          | some rv =>
            cases rv with
            | jarr rl' =>
              exfalso
              simp [containerOk, hE', hR'] at hv
            | jnull =>
              exact ⟨"MER.relationships must be a list", by simp [validate_mer_basic, hE', hR']⟩
            | jbool b =>
              exact ⟨"MER.relationships must be a list", by simp [validate_mer_basic, hE', hR']⟩
            | jnum n =>
              exact ⟨"MER.relationships must be a list", by simp [validate_mer_basic, hE', hR']⟩
            | jstr s =>
              exact ⟨"MER.relationships must be a list", by simp [validate_mer_basic, hE', hR']⟩
            | jobj o =>
              exact ⟨"MER.relationships must be a list", by simp [validate_mer_basic, hE', hR']⟩
        | jnull => exact ⟨"MER.entities must be a list", by simp [validate_mer_basic, hE']⟩
        | jbool b => exact ⟨"MER.entities must be a list", by simp [validate_mer_basic, hE']⟩
        | jnum n => exact ⟨"MER.entities must be a list", by simp [validate_mer_basic, hE']⟩
        | jstr s => exact ⟨"MER.entities must be a list", by simp [validate_mer_basic, hE']⟩
        | jobj o => exact ⟨"MER.entities must be a list", by simp [validate_mer_basic, hE']⟩
    | jnull => exact ⟨"MER must be a dictionary", rfl⟩
    | jbool b => exact ⟨"MER must be a dictionary", rfl⟩
    | jnum n => exact ⟨"MER must be a dictionary", rfl⟩
    | jstr s => exact ⟨"MER must be a dictionary", rfl⟩
    | jarr l => exact ⟨"MER must be a dictionary", rfl⟩

/-- C3 (counterexample): the "raises if and only if" characterization fails.
`c3Mixed` is a well-formed container (a dict with entity and relationship
lists) whose single entity *does* carry an attribute with the primary-key
flag set (`{"pk": true}`), and yet the validator raises — the pk scan hits
the preceding non-dict element `42` and dies with `AttributeError` before
reaching the pk-flagged attribute. -/
theorem c3_validator_not_iff :
    validate_mer_basic c3Mixed = .error .attrError
    ∧ containerOk c3Mixed = true
    ∧ (∃ kvs es e, c3Mixed = .jobj kvs ∧ dlookup "entities" kvs = some (.jarr es)
        ∧ e ∈ es ∧ entityHasPk e = true) := by
  exact ⟨rfl, rfl, ⟨c3MixedKvs, [c3MixedEnt], c3MixedEnt, rfl, rfl, by simp, rfl⟩⟩

/-- C3 (witness): the characterization applied to the concrete well-formed
one-entity MER `c3GoodKvs`: the validator accepts it. -/
theorem c3_witness :
    validate_mer_basic (.jobj c3GoodKvs) = .ok () := by
  refine (c3_validator_characterization c3GoodKvs c3GoodEnts [] rfl rfl ?_).1.mpr ?_
  · intro e he
    simp only [c3GoodEnts, List.mem_singleton] at he
    subst he
    rfl
  · intro e he
    simp only [c3GoodEnts, List.mem_singleton] at he
    subst he
    rfl

/-! ## Claim C4 — the Cardinality Resolver -/

theorem overlayType_append (t0 : Option String) (ms : List Rule) (u : Rule) :
    overlayType t0 (ms ++ [u])
      = match u.rtype with | some x => some x | none => overlayType t0 ms := by
  simp [overlayType, List.foldl_append]

theorem resolve_cardinality_spec (rules : List Rule) (r : Relationship) :
    resolve_cardinality r rules =
      { r with rtype := overlayType r.rtype (matchedRules r rules),
               sources := r.sources ++ (matchedRules r rules).flatMap Rule.sources } := by
  induction rules generalizing r with
  | nil =>
    simp [resolve_cardinality, matchedRules, overlayType]
  | cons u rest ih =>
    by_cases hm : cardMatches r u = true
    · have hstep : resolve_cardinality r (u :: rest) =
          resolve_cardinality
            { r with rtype := match u.rtype with | some t => some t | none => r.rtype,
                     sources := r.sources ++ u.sources } rest := by
        simp [resolve_cardinality, hm]
      rw [hstep, ih]
      have hmr : matchedRules
          { r with rtype := match u.rtype with | some t => some t | none => r.rtype,
                   sources := r.sources ++ u.sources } rest = matchedRules r rest := rfl
      rw [hmr]
      simp [matchedRules, List.filter_cons, hm, overlayType]
    · have hstep : resolve_cardinality r (u :: rest) = resolve_cardinality r rest := by
        simp [resolve_cardinality, hm]
      rw [hstep, ih]
      simp [matchedRules, List.filter_cons, hm]

/-- C4: the Cardinality Resolver.  When no rule of kind `cardinality` matches
the relationship's `(from, to)` pair (case-sensitive option equality) the
relationship is returned unchanged; otherwise the matching rules are applied
in list order, so the last matching rule carrying a `type` determines the
resulting type, and each matching rule's sources are appended in order to the
relationship's existing sources; `from`/`to`/`fk` are never touched.  On the
concrete example, `{from: Order, to: User, type: one-to-many}` resolved
against `{kind: cardinality, from: Order, to: User, type: many-to-one,
sources: [doc:x]}` has type `many-to-one` and sources `[doc:x]`. -/
theorem c4_resolve_cardinality (rel : Relationship) (rules : List Rule) :
    (matchedRules rel rules = [] → resolve_cardinality rel rules = rel)
    ∧ (resolve_cardinality rel rules).sources
        = rel.sources ++ (matchedRules rel rules).flatMap Rule.sources
    ∧ (resolve_cardinality rel rules).rfrom = rel.rfrom
    ∧ (resolve_cardinality rel rules).rto = rel.rto
    ∧ (resolve_cardinality rel rules).fk = rel.fk
    ∧ (∀ ms u t, matchedRules rel rules = ms ++ [u] → u.rtype = some t →
        (resolve_cardinality rel rules).rtype = some t)
    ∧ resolve_cardinality c4Rel [c4Rule]
        = { c4Rel with rtype := some "many-to-one", sources := ["doc:x"] } := by
  rw [resolve_cardinality_spec]
  refine ⟨?_, rfl, rfl, rfl, rfl, ?_, by decide⟩
  · intro hempty
    simp [hempty, overlayType]
  · intro ms u t hms hu
    simp only [hms, overlayType_append, hu]

/-- C4 (witness): the resolver theorem applied at the concrete example
relationship and rule, and at the empty rule list. -/
theorem c4_witness :
    (resolve_cardinality c4Rel [c4Rule]).rtype = some "many-to-one"
    ∧ resolve_cardinality c4Rel [] = c4Rel :=
  ⟨(c4_resolve_cardinality c4Rel [c4Rule]).2.2.2.2.2.1 [] c4Rule "many-to-one"
      (by decide) rfl,
   (c4_resolve_cardinality c4Rel []).1 (by decide)⟩

/-! ## Helper lemmas: association-list dictionaries -/

theorem dlookup_append {β : Type} (k : String) (m₁ m₂ : List (String × β)) :
    dlookup k (m₁ ++ m₂)
      = match dlookup k m₁ with | some v => some v | none => dlookup k m₂ := by
  induction m₁ with
  | nil => simp [dlookup]
  | cons p m ih =>
    by_cases hp : p.1 = k <;> simp [dlookup, hp, ih]

theorem dlookup_overwrite {β : Type} (m : List (String × β)) (k : String) (v : β)
    (k' : String) :
    dlookup k' (m.map (fun p => if p.1 = k then (p.1, v) else p))
      = if k' = k ∧ (dlookup k m).isSome then some v else dlookup k' m := by
  induction m with
  | nil => simp [dlookup]
  | cons p m ih =>
    simp only [List.map_cons]
    by_cases hpk : p.1 = k
    · subst hpk
      by_cases hk' : k' = p.1
      · subst hk'
        simp [dlookup]
      · have hps : ¬ p.1 = k' := fun h => hk' h.symm
        simp [dlookup, hk', hps, ih]
    · rw [if_neg hpk]
      by_cases hpk' : p.1 = k'
      · have hk'k : ¬ (k' = k) := fun h => hpk (hpk'.trans h)
        simp [dlookup, hpk, hpk', hk'k]
      · simp [dlookup, hpk, hpk', ih]

theorem dlookup_dictSet {β : Type} (m : List (String × β)) (k : String) (v : β)
    (k' : String) :
    dlookup k' (dictSet m k v) = if k' = k then some v else dlookup k' m := by
  unfold dictSet
  by_cases hs : (dlookup k m).isSome
  · rw [if_pos hs, dlookup_overwrite]
    by_cases hk' : k' = k <;> simp [hk', hs]
  · rw [if_neg hs, dlookup_append]
    by_cases hk' : k' = k
    · subst hk'
      have : dlookup k' m = none := by
        cases h : dlookup k' m with
        | none => rfl
        | some w => rw [h] at hs; simp at hs
      simp [this, dlookup]
    · have hkk' : ¬ k = k' := fun h => hk' h.symm
      cases h : dlookup k' m with
      | none => simp [dlookup, hk', hkk']
      | some w => simp [hk']

theorem dlookup_mem {β : Type} {m : List (String × β)} {k : String} {v : β}
    (h : dlookup k m = some v) : (k, v) ∈ m := by
  induction m with
  | nil => simp [dlookup] at h
  | cons p m ih =>
    by_cases hp : p.1 = k
    · simp only [dlookup, hp, if_pos] at h
      have hkv : (k, v) = p := by
        cases p with
        | mk a b =>
          simp only at hp
          simp at h
          simp [← hp, ← h]
      rw [hkv]
      exact List.mem_cons_self p m
    · simp only [dlookup, hp, if_neg, if_false] at h
      exact List.mem_cons_of_mem p (ih h)

theorem dlookup_isSome_iff {β : Type} {m : List (String × β)} {k : String} :
    (dlookup k m).isSome = true ↔ k ∈ m.map Prod.fst := by
  induction m with
  | nil => simp [dlookup]
  | cons p m ih =>
    by_cases hp : p.1 = k
    · simp [dlookup, hp]
    · have hp' : ¬ k = p.1 := fun h => hp h.symm
      simp [dlookup, hp, hp', ih]

theorem keys_dictSet {β : Type} (m : List (String × β)) (k : String) (v : β) :
    (dictSet m k v).map Prod.fst
      = if (dlookup k m).isSome then m.map Prod.fst else m.map Prod.fst ++ [k] := by
  unfold dictSet
  by_cases hs : (dlookup k m).isSome
  · rw [if_pos hs, if_pos hs, List.map_map]
    apply List.map_congr_left
    intro p _
    by_cases hp : p.1 = k <;> simp [hp]
  · rw [if_neg hs, if_neg hs]
    simp

/-! ## Helper lemmas: `merge_parts` -/

theorem dlookup_mergeStep (m : List (String × Entity)) (ea : Entity) (k : String) :
    dlookup k (mergeStep m ea)
      = if k = ea.name then
          (match dlookup ea.name m with
           | some base => some (mergedOf base ea)
           | none => some ea)
        else dlookup k m := by
  unfold mergeStep
  cases hb : dlookup ea.name m with
  | some base => rw [dlookup_dictSet]
  | none =>
    rw [dlookup_append]
    by_cases hk : k = ea.name
    · subst hk
      simp [hb, dlookup]
    · have hek : ¬ ea.name = k := fun h => hk h.symm
      cases h : dlookup k m with
      | none => simp [dlookup, hk, hek]
      | some w => simp [hk]

theorem good_dictSet {m : List (String × Entity)} {k : String} {v : Entity}
    (h1 : (m.map Prod.fst).Nodup) (h2 : ∀ p ∈ m, p.2.name = p.1) (hv : v.name = k) :
    ((dictSet m k v).map Prod.fst).Nodup ∧ ∀ p ∈ dictSet m k v, p.2.name = p.1 := by
  constructor
  · rw [keys_dictSet]
    by_cases hs : (dlookup k m).isSome
    · simpa [hs] using h1
    · rw [if_neg hs]
      rw [List.nodup_append]
      refine ⟨h1, List.nodup_singleton k, ?_⟩
      intro x hx hk
      rw [List.mem_singleton] at hk
      subst hk
      exact hs (dlookup_isSome_iff.mpr hx)
  · intro p hp
    unfold dictSet at hp
    by_cases hs : (dlookup k m).isSome
    · rw [if_pos hs] at hp
      obtain ⟨q, hq, rfl⟩ := List.mem_map.mp hp
      by_cases hqk : q.1 = k <;> simp [hqk, hv, h2 q hq]
    · rw [if_neg hs] at hp
      rcases List.mem_append.mp hp with h | h
      · exact h2 p h
      · simp at h
        subst h
        exact hv

theorem good_mergeStep {m : List (String × Entity)}
    (h1 : (m.map Prod.fst).Nodup) (h2 : ∀ p ∈ m, p.2.name = p.1) (ea : Entity) :
    ((mergeStep m ea).map Prod.fst).Nodup ∧ ∀ p ∈ mergeStep m ea, p.2.name = p.1 := by
  unfold mergeStep
  cases hb : dlookup ea.name m with
  | some base =>
    have hbase : base.name = ea.name := h2 (ea.name, base) (dlookup_mem hb)
    exact good_dictSet h1 h2 (by simp [mergedOf, hbase])
  | none =>
    constructor
    · rw [List.map_append, List.nodup_append]
      refine ⟨h1, by simp, ?_⟩
      intro x hx hk
      simp at hk
      subst hk
      have : ¬ (dlookup ea.name m).isSome := by simp [hb]
      exact this (dlookup_isSome_iff.mpr hx)
    · intro p hp
      rcases List.mem_append.mp hp with h | h
      · exact h2 p h
      · simp at h
        subst h
        rfl

theorem good_foldl_mergeStep (as : List Entity) (m : List (String × Entity))
    (h1 : (m.map Prod.fst).Nodup) (h2 : ∀ p ∈ m, p.2.name = p.1) :
    (((as.foldl mergeStep m).map Prod.fst).Nodup)
    ∧ ∀ p ∈ as.foldl mergeStep m, p.2.name = p.1 := by
  induction as generalizing m with
  | nil => exact ⟨h1, h2⟩
  | cons x rest ih =>
    obtain ⟨g1, g2⟩ := good_mergeStep h1 h2 x
    exact ih (mergeStep m x) g1 g2

theorem good_foldl_build (es : List Entity) (m : List (String × Entity))
    (h1 : (m.map Prod.fst).Nodup) (h2 : ∀ p ∈ m, p.2.name = p.1) :
    (((es.foldl (fun m x => dictSet m x.name x) m).map Prod.fst).Nodup)
    ∧ ∀ p ∈ es.foldl (fun m x => dictSet m x.name x) m, p.2.name = p.1 := by
  induction es generalizing m with
  | nil => exact ⟨h1, h2⟩
  | cons x rest ih =>
    obtain ⟨g1, g2⟩ := good_dictSet h1 h2 (v := x) rfl
    exact ih (dictSet m x.name x) g1 g2

theorem foldl_build_untouched {es : List Entity} {k : String}
    (h : ∀ y ∈ es, y.name ≠ k) (m : List (String × Entity)) :
    dlookup k (es.foldl (fun m x => dictSet m x.name x) m) = dlookup k m := by
  induction es generalizing m with
  | nil => rfl
  | cons y rest ih =>
    rw [List.foldl_cons, ih (fun x hx => h x (by simp [hx])), dlookup_dictSet,
      if_neg (fun hc => h y (by simp) hc.symm)]

theorem foldl_merge_untouched {as : List Entity} {k : String}
    (h : ∀ y ∈ as, y.name ≠ k) (m : List (String × Entity)) :
    dlookup k (as.foldl mergeStep m) = dlookup k m := by
  induction as generalizing m with
  | nil => rfl
  | cons y rest ih =>
    rw [List.foldl_cons, ih (fun x hx => h x (by simp [hx])), dlookup_mergeStep,
      if_neg (fun hc => h y (by simp) hc.symm)]

theorem build_lookup_mem {es : List Entity} (hnd : (es.map Entity.name).Nodup)
    {x : Entity} (hx : x ∈ es) (m : List (String × Entity)) :
    dlookup x.name (es.foldl (fun m y => dictSet m y.name y) m) = some x := by
  induction es generalizing m with
  | nil => cases hx
  | cons y rest ih =>
    rw [List.foldl_cons]
    rcases List.mem_cons.mp hx with rfl | hxr
    · have hhead : x.name ∉ rest.map Entity.name := (List.nodup_cons.mp hnd).1
      have hrest : ∀ z ∈ rest, z.name ≠ x.name := by
        intro z hz hc
        exact hhead (hc ▸ List.mem_map_of_mem Entity.name hz)
      rw [foldl_build_untouched hrest, dlookup_dictSet, if_pos rfl]
    · exact ih (List.nodup_cons.mp hnd).2 hxr _

theorem merge_lookup_hit {as : List Entity} (hnd : (as.map Entity.name).Nodup)
    {x : Entity} (hx : x ∈ as) {m : List (String × Entity)} {base : Entity}
    (hb : dlookup x.name m = some base) :
    dlookup x.name (as.foldl mergeStep m) = some (mergedOf base x) := by
  induction as generalizing m with
  | nil => cases hx
  | cons y rest ih =>
    rw [List.foldl_cons]
    rcases List.mem_cons.mp hx with rfl | hxr
    · have hhead : x.name ∉ rest.map Entity.name := (List.nodup_cons.mp hnd).1
      have hrest : ∀ z ∈ rest, z.name ≠ x.name := by
        intro z hz hc
        exact hhead (hc ▸ List.mem_map_of_mem Entity.name hz)
      rw [foldl_merge_untouched hrest, dlookup_mergeStep, if_pos rfl, hb]
    · have hyx : ¬ x.name = y.name := by
        intro hc
        exact (List.nodup_cons.mp hnd).1 (hc ▸ List.mem_map_of_mem Entity.name hxr)
      have hb' : dlookup x.name (mergeStep m y) = some base := by
        rw [dlookup_mergeStep, if_neg hyx]
        exact hb
      exact ih (List.nodup_cons.mp hnd).2 hxr hb'

theorem merge_lookup_new {as : List Entity} (hnd : (as.map Entity.name).Nodup)
    {x : Entity} (hx : x ∈ as) {m : List (String × Entity)}
    (hb : dlookup x.name m = none) :
    dlookup x.name (as.foldl mergeStep m) = some x := by
  induction as generalizing m with
  | nil => cases hx
  | cons y rest ih =>
    rw [List.foldl_cons]
    rcases List.mem_cons.mp hx with rfl | hxr
    · have hhead : x.name ∉ rest.map Entity.name := (List.nodup_cons.mp hnd).1
      have hrest : ∀ z ∈ rest, z.name ≠ x.name := by
        intro z hz hc
        exact hhead (hc ▸ List.mem_map_of_mem Entity.name hz)
      rw [foldl_merge_untouched hrest, dlookup_mergeStep, if_pos rfl, hb]
    · have hyx : ¬ x.name = y.name := by
        intro hc
        exact (List.nodup_cons.mp hnd).1 (hc ▸ List.mem_map_of_mem Entity.name hxr)
      have hb' : dlookup x.name (mergeStep m y) = none := by
        rw [dlookup_mergeStep, if_neg hyx]
        exact hb
      exact ih (List.nodup_cons.mp hnd).2 hxr hb'

/-! ## Claim C5 — the Pass Merger -/

/-- C5: `merge_parts`.  For pass outputs whose entity names are unique within
each pass, an entity name present in both passes yields a merged entity
carrying the Attributes-pass attribute list, the Entities-pass sources
extended with the Attributes-pass sources, and a confidence equal to the
maximum of the two (hence at least both confidences).  Entities present only
in the Attributes pass are admitted unchanged. -/
theorem c5_merge_parts (e a r : PassResult) (ctx : Ctx)
    (eEnt aEnt : Entity) (attrsA : List Attribute)
    (hne : (e.entities.map Entity.name).Nodup)
    (hna : (a.entities.map Entity.name).Nodup)
    (he : eEnt ∈ e.entities) (ha : aEnt ∈ a.entities)
    (hn : aEnt.name = eEnt.name) (hattrs : aEnt.attributes? = some attrsA) :
    (∃ merged ∈ (merge_parts e a r ctx).entities,
      merged.name = eEnt.name
      ∧ merged.attributes? = some attrsA
      ∧ merged.sources = eEnt.sources ++ aEnt.sources
      ∧ merged.confidence = some (max (eEnt.confidence.getD 0) (aEnt.confidence.getD 0))
      ∧ eEnt.confidence.getD 0 ≤ merged.confidence.getD 0
      ∧ aEnt.confidence.getD 0 ≤ merged.confidence.getD 0)
    ∧ (∀ x ∈ a.entities, (∀ y ∈ e.entities, y.name ≠ x.name) →
        x ∈ (merge_parts e a r ctx).entities) := by
  have hents : (merge_parts e a r ctx).entities
      = (a.entities.foldl mergeStep
          (e.entities.foldl (fun m x => dictSet m x.name x) [])).map Prod.snd := rfl
  constructor
  · have hbase : dlookup aEnt.name
        (e.entities.foldl (fun m x => dictSet m x.name x) []) = some eEnt := by
      rw [hn]
      exact build_lookup_mem hne he []
    have hm1 := merge_lookup_hit hna ha hbase
    refine ⟨mergedOf eEnt aEnt, ?_, ?_, ?_, rfl, rfl, ?_, ?_⟩
    · rw [hents]
      exact List.mem_map_of_mem Prod.snd (dlookup_mem hm1)
    · have hbn : eEnt.name = aEnt.name := hn.symm
      simp [mergedOf]
    · simp [mergedOf, hattrs]
    · simp [mergedOf]
    · simp [mergedOf]
  · intro x hx hdisj
    have hnone : dlookup x.name
        (e.entities.foldl (fun m y => dictSet m y.name y) []) = none := by
      rw [foldl_build_untouched hdisj]
      rfl
    have hm1 := merge_lookup_new hna hx hnone
    rw [hents]
    exact List.mem_map_of_mem Prod.snd (dlookup_mem hm1)

/-- C5 (witness): the merger theorem applied to concrete passes — merging
`User` with confidence 0.6 and attribute-pass confidence 0.9 yields a merged
`User` with the attribute list of the attributes pass, concatenated sources
and confidence `max 0.6 0.9 = 0.9 ≥` both, while `Order` (attributes pass
only) is admitted. -/
theorem c5_witness :
    (∃ merged ∈ (merge_parts c5EPass c5APass emptyPass emptyCtx).entities,
      merged.name = c5UserE.name
      ∧ merged.attributes? = some [c5IdAttr]
      ∧ merged.sources = c5UserE.sources ++ c5UserA.sources
      ∧ merged.confidence = some (max (c5UserE.confidence.getD 0) (c5UserA.confidence.getD 0))
      ∧ c5UserE.confidence.getD 0 ≤ merged.confidence.getD 0
      ∧ c5UserA.confidence.getD 0 ≤ merged.confidence.getD 0)
    ∧ (∀ x ∈ c5APass.entities, (∀ y ∈ c5EPass.entities, y.name ≠ x.name) →
        x ∈ (merge_parts c5EPass c5APass emptyPass emptyCtx).entities) :=
  c5_merge_parts c5EPass c5APass emptyPass emptyCtx c5UserE c5UserA [c5IdAttr]
    (by decide) (by decide)
    (List.mem_cons_self c5UserE [])
    (List.mem_cons_self c5UserA [c5OrderA])
    rfl rfl

/-! ## Claim C9 — entity-name uniqueness -/

/-- C9 (counterexample): uniqueness does not survive naming normalization.
The entities pass may return distinct names `User` and `user`; `merge_parts`
keeps them as distinct entries, and `unify_naming` then canonicalizes both to
`User`, so the resulting MER's entities list carries a duplicate name — and
this is the MER handed to the Validator (which does not check uniqueness). -/
theorem c9_normalization_breaks_uniqueness :
    (unify_naming (merge_parts c9EPass emptyPass emptyPass emptyCtx) []).map
        (fun m => m.entities.map Entity.name) = some ["User", "User"]
    ∧ ¬ (["User", "User"] : List String).Nodup := by
  exact ⟨by decide, by decide⟩

/-- C9 (amended): entity names are unique in the MER produced by
`merge_parts` (before naming normalization): the entities list is the value
list of a name-keyed dictionary, so no two entries share a name.  The naming
normalizer can subsequently collapse distinct names into duplicates. -/
theorem c9_merge_parts_names_nodup (e a r : PassResult) (ctx : Ctx) :
    ((merge_parts e a r ctx).entities.map Entity.name).Nodup := by
  have hbuild := good_foldl_build e.entities [] (by simp) (by simp)
  have hm := good_foldl_mergeStep a.entities _ hbuild.1 hbuild.2
  have hents : (merge_parts e a r ctx).entities
      = (a.entities.foldl mergeStep
          (e.entities.foldl (fun m x => dictSet m x.name x) [])).map Prod.snd := rfl
  rw [hents, List.map_map]
  have hcongr := List.map_congr_left (f := Entity.name ∘ Prod.snd) (g := Prod.fst)
    (fun p hp => hm.2 p hp)
  rw [hcongr]
  exact hm.1

/-! ## Helper lemmas: the projector's `rel_map` -/

theorem dlookup_relMapInsert (m : List (String × List RelInfo)) (k : String)
    (v : RelInfo) (k' : String) :
    dlookup k' (relMapInsert m k v)
      = if k' = k then some ((dlookup k m).getD [] ++ [v]) else dlookup k' m := by
  unfold relMapInsert
  cases hb : dlookup k m with
  | some l =>
    rw [dlookup_dictSet]
    by_cases hk : k' = k <;> simp [hk]
  | none =>
    rw [dlookup_append]
    by_cases hk : k' = k
    · subst hk
      simp [hb, dlookup]
    · have hkk : ¬ k = k' := fun h => hk h.symm
      cases h : dlookup k' m with
      | none => simp [dlookup, hk, hkk]
      | some w => simp [hk]

theorem relmap_fold_getD (rels : List PRel) (m : List (String × List RelInfo))
    (f : String) :
    (dlookup f (rels.foldl (fun m rel => relMapInsert m rel.pfrom (relInfoOf rel)) m)).getD []
      = (dlookup f m).getD []
        ++ (rels.filter (fun rel => rel.pfrom = f)).map relInfoOf := by
  induction rels generalizing m with
  | nil => simp
  | cons rel rest ih =>
    rw [List.foldl_cons, ih]
    by_cases hp : rel.pfrom = f
    · rw [dlookup_relMapInsert, if_pos hp.symm]
      simp [List.filter_cons, hp, List.append_assoc]
    · rw [dlookup_relMapInsert, if_neg (fun hc => hp hc.symm)]
      simp [List.filter_cons, hp]

theorem relmap_fold_isSome (rels : List PRel) (m : List (String × List RelInfo))
    (f : String) :
    (dlookup f (rels.foldl (fun m rel => relMapInsert m rel.pfrom (relInfoOf rel)) m)).isSome
      = ((dlookup f m).isSome || !(rels.filter (fun rel => rel.pfrom = f)).isEmpty) := by
  induction rels generalizing m with
  | nil => simp
  | cons rel rest ih =>
    rw [List.foldl_cons, ih]
    by_cases hp : rel.pfrom = f
    · rw [dlookup_relMapInsert, if_pos hp.symm]
      simp [List.filter_cons, hp]
    · rw [dlookup_relMapInsert, if_neg (fun hc => hp hc.symm)]
      simp [List.filter_cons, hp]

theorem dlookup_buildRelMap_getD (rels : List PRel) (f : String) :
    (dlookup f (buildRelMap rels)).getD []
      = (rels.filter (fun rel => rel.pfrom = f)).map relInfoOf := by
  have h := relmap_fold_getD rels [] f
  simpa [buildRelMap, dlookup] using h

theorem dlookup_buildRelMap_eq (rels : List PRel) (f : String)
    (hne : rels.filter (fun rel => rel.pfrom = f) ≠ []) :
    dlookup f (buildRelMap rels)
      = some ((rels.filter (fun rel => rel.pfrom = f)).map relInfoOf) := by
  have hs : (dlookup f (buildRelMap rels)).isSome = true := by
    have h := relmap_fold_isSome rels [] f
    simp only [buildRelMap]
    rw [h]
    simp [dlookup, List.isEmpty_iff, hne]
  cases hdl : dlookup f (buildRelMap rels) with
  | none => rw [hdl] at hs; simp at hs
  | some l =>
    have := dlookup_buildRelMap_getD rels f
    rw [hdl] at this
    simp at this
    rw [this]

theorem match_relmap_lines {γ : Type} (o : Option (List RelInfo))
    (g : List RelInfo → List γ) (hg : g [] = []) :
    (match o with | none => ([] : List γ) | some rs => g rs) = g (o.getD []) := by
  cases o <;> simp [hg]

theorem reverseRows_closed_form (entities : List Entity) (rels : List PRel)
    (name : String) :
    reverseRows (buildRelMap rels) entities name
      = entities.flatMap (fun o =>
          (rels.filter (fun rel => rel.pfrom = o.name ∧ rel.pto = name)).map
            (fun _ => reverseLine o.name)) := by
  have hone : ∀ o : Entity,
      (match dlookup o.name (buildRelMap rels) with
       | none => ([] : List String)
       | some rs => (rs.filter (fun ri => ri.rto = name)).map (fun _ => reverseLine o.name))
      = (rels.filter (fun rel => rel.pfrom = o.name ∧ rel.pto = name)).map
          (fun _ => reverseLine o.name) := by
    intro o
    rw [match_relmap_lines _ _ (by simp), dlookup_buildRelMap_getD, List.filter_map,
      List.map_map, List.filter_filter]
    have hpred : ∀ rel : PRel,
        (((fun ri => decide (ri.rto = name)) ∘ relInfoOf) rel
            && decide (rel.pfrom = o.name))
          = decide (rel.pfrom = o.name ∧ rel.pto = name) := by
      intro rel
      have : ((fun ri => decide (ri.rto = name)) ∘ relInfoOf) rel
          = decide (rel.pto = name) := rfl
      rw [this]
      by_cases h1 : rel.pto = name <;> by_cases h2 : rel.pfrom = o.name <;>
        simp [h1, h2]
    rw [List.filter_congr (fun rel _ => hpred rel)]
    rfl
  unfold reverseRows
  induction entities with
  | nil => rfl
  | cons o rest ih =>
    rw [List.flatMap_cons, List.flatMap_cons, hone o, ih]

/-! ## Claim C6 — reverse-relationship derivation -/

/-- C6 (counterexample): reverse collection fields are *not* de-duplicated.
With the relationship entry `{from: Order, to: User, type: many-to-one}`
repeated twice in the relationships list, the generated output contains the
reverse collection line `  orders Order[]` twice (both inside the `User`
model), where the claim demands exactly one. -/
theorem c6_duplicate_reverse_fields :
    (generate_models [cUserEnt, cOrderEnt] [cOrderUserRel, cOrderUserRel]).count
        (reverseLine "Order") = 2 := by
  decide

/-- C6 (amended): for every entity name, the reverse-relationship rows of its
model contain exactly one collection line per occurrence (with multiplicity)
of a relationship entry pointing at it from each same-named entity in the
entities list — with no filtering on the relationship type and no
de-duplication of repeated entries.  In the concrete single-entry case
(entities `User`, `Order`, relationship `{from: Order, to: User, type:
many-to-one}`) the output contains exactly one `  orders Order[]` line. -/
theorem c6_reverse_rows_per_entry :
    (∀ (entities : List Entity) (rels : List PRel) (name : String),
      reverseRows (buildRelMap rels) entities name
        = entities.flatMap (fun o =>
            (rels.filter (fun rel => rel.pfrom = o.name ∧ rel.pto = name)).map
              (fun _ => reverseLine o.name)))
    ∧ (generate_models [cUserEnt, cOrderEnt] [cOrderUserRel]).count
        (reverseLine "Order") = 1 := by
  exact ⟨reverseRows_closed_form, by decide⟩

/-! ## Claim C7 — the type-mapping table -/

/-- C7 (counterexample): the emitted target type is *not* determined by the
logical type alone: for the same logical type `int`, the attribute named
`username` is forced to `String @db.VarChar(255)` by the name-based override
(`'name' in attr_name.lower()`), while `count` maps to `Int` — and the
claim's table requires `int → Int` in both cases.  (Also `date` maps to
Prisma type `DateTime` with a `@db.Date` constraint, not a `Date` type.) -/
theorem c7_mapping_depends_on_attr_name :
    map_type_with_db_constraints "int" "username" = ("String", "@db.VarChar(255)")
    ∧ map_type_with_db_constraints "int" "count" = ("Int", "")
    ∧ map_type_with_db_constraints "int" "username"
        ≠ map_type_with_db_constraints "int" "count"
    ∧ map_type_with_db_constraints "date" "born" = ("DateTime", "@db.Date") := by
  exact ⟨by decide, by decide, by decide, by decide⟩

/-- C7 (amended): the logical-type table (with `string→String VarChar(255)`,
`text→String Text`, `int/integer→Int`, `bigint→BigInt`, `float→Float`,
`decimal→Decimal`, `boolean/bool→Boolean`, `date→DateTime @db.Date`,
`datetime/timestamp→DateTime @db.Timestamptz(6)`, `uuid→String @db.Uuid`,
`cuid→String`, `json→Json @db.JsonB`, `email→String VarChar(255)`,
`url→String VarChar(500)`, unknown→`String VarChar(255)`) applies only when
no attribute-name override fires; names ending in `id` force
`String @db.Uuid`, and the `password`/`email`/`name`/`description`/timestamp
name patterns force their own results regardless of the logical type. -/
theorem c7_table_modulo_name_overrides (t name : String) (h : ¬ nameOverridden name) :
    map_type_with_db_constraints t name = tableLookupResult t
    ∧ map_type_with_db_constraints "int" "id" = ("String", "@db.Uuid")
    ∧ map_type_with_db_constraints "int" "accountId" = ("String", "@db.Uuid")
    ∧ map_type_with_db_constraints "string" "userPassword" = ("String", "@db.VarChar(255)")
    ∧ map_type_with_db_constraints "int" "shortDescription" = ("String", "@db.Text")
    ∧ map_type_with_db_constraints "string" "created_at" = ("DateTime", "@db.Timestamptz(6)")
    ∧ tableLookupResult "unknown-type" = ("String", "@db.VarChar(255)") := by
  refine ⟨?_, by decide, by decide, by decide, by decide, by decide, by decide⟩
  have h' := h
  unfold nameOverridden at h'
  simp only [not_or] at h'
  obtain ⟨⟨hid, hends⟩, hpw, hem, hnm, hde, hca, hca2, hua, hua2, hda, hda2⟩ := h'
  simp only [map_type_with_db_constraints, tableLookupResult]
  rw [if_neg (not_or.mpr ⟨hid, hends⟩), if_neg hpw, if_neg hem, if_neg hnm, if_neg hde,
    if_neg (not_or.mpr ⟨hca, hca2⟩), if_neg (not_or.mpr ⟨hua, hua2⟩),
    if_neg (not_or.mpr ⟨hda, hda2⟩)]

/-- C7 (witness): the amended theorem applied at logical type `int` and the
override-free attribute name `qty`. -/
theorem c7_witness :
    map_type_with_db_constraints "int" "qty" = tableLookupResult "int" :=
  (c7_table_modulo_name_overrides "int" "qty" (by decide)).1

/-! ## Claim C8 — foreign-key synthesis -/

/-- C8 (counterexample): the synthesized foreign-key attribute is *not* typed
after the referenced entity's referenced attribute.  With relationship fk
`{attribute: ownerId, ref: User.age}` where `User.age` is logical type `int`
(mapped type `Int`), the projector still emits
`  ownerId String @map("owner_id") @db.Uuid` — the fk line is hard-coded
`String @db.Uuid` — and no `ownerId Int` line exists anywhere. -/
theorem c8_fk_type_hardcoded :
    map_type_with_db_constraints "int" "age" = ("Int", "")
    ∧ "  ownerId String @map(\"owner_id\") @db.Uuid"
        ∈ generate_models [cOrderEnt, c8UserEnt] [c8Rel]
    ∧ (generate_models [cOrderEnt, c8UserEnt] [c8Rel]).all
        (fun l => !(("  ownerId Int").toList.isPrefixOf l.toList)) = true := by
  exact ⟨by decide, by decide, by decide⟩

/-- C8 (amended): for every entity with an outgoing relationship whose fk
attribute name is not already among the entity's attributes, the model block
contains a synthesized foreign-key attribute line named from the fk
descriptor — always typed `String` with a `@db.Uuid` constraint (and an
optional snake-case `@map`), irrespective of the referenced attribute's
type — together with a relation field referencing that fk attribute and the
referenced field. -/
theorem c8_fk_synthesis (entities : List Entity) (rels : List PRel)
    (E : Entity) (r : PRel)
    (hE : E ∈ entities) (hr : r ∈ rels) (hfrom : r.pfrom = E.name)
    (hnp : ∀ a ∈ E.attributes?.getD [], a.name ≠ (relInfoOf r).fk_attribute) :
    fkLine (relInfoOf r).fk_attribute ∈ generate_models entities rels
    ∧ relationFieldLine (relInfoOf r) ∈ generate_models entities rels
    ∧ ∃ d, fkLine (relInfoOf r).fk_attribute
        = "  " ++ (relInfoOf r).fk_attribute ++ " String" ++ d ++ " @db.Uuid" := by
  have hfilter : r ∈ rels.filter (fun rel => rel.pfrom = E.name) :=
    List.mem_filter.mpr ⟨hr, by simp [hfrom]⟩
  have hne : rels.filter (fun rel => rel.pfrom = E.name) ≠ [] :=
    List.ne_nil_of_mem hfilter
  have hmap := dlookup_buildRelMap_eq rels E.name hne
  have hri : relInfoOf r
      ∈ (rels.filter (fun rel => rel.pfrom = E.name)).map relInfoOf :=
    List.mem_map_of_mem relInfoOf hfilter
  have hanyf : (E.attributes?.getD []).any
      (fun a => a.name = (relInfoOf r).fk_attribute) = false := by
    rw [List.any_eq_false]
    intro a ha
    simp [hnp a ha]
  have hlines : ∀ s ∈ relLines E (relInfoOf r), s ∈ generate_models entities rels := by
    intro s hs
    have hblock : s ∈ relBlock (buildRelMap rels) E := by
      unfold relBlock
      rw [hmap]
      exact List.mem_cons_of_mem _ (List.mem_flatMap.mpr ⟨relInfoOf r, hri, hs⟩)
    have hmodel : s ∈ modelLines (buildRelMap rels) entities E := by
      unfold modelLines
      simp only [List.mem_cons, List.mem_append]
      tauto
    exact List.mem_flatMap.mpr ⟨E, hE, hmodel⟩
  refine ⟨?_, ?_, ?_⟩
  · apply hlines
    unfold relLines
    rw [hanyf]
    simp
  · apply hlines
    unfold relLines
    rw [hanyf]
    simp
  · exact ⟨_, rfl⟩

/-- C8 (witness): the synthesis theorem applied to the concrete `Order`
entity and its fk relationship to `User.age`. -/
theorem c8_witness :
    fkLine (relInfoOf c8Rel).fk_attribute
        ∈ generate_models [cOrderEnt, c8UserEnt] [c8Rel]
    ∧ relationFieldLine (relInfoOf c8Rel)
        ∈ generate_models [cOrderEnt, c8UserEnt] [c8Rel]
    ∧ ∃ d, fkLine (relInfoOf c8Rel).fk_attribute
        = "  " ++ (relInfoOf c8Rel).fk_attribute ++ " String" ++ d ++ " @db.Uuid" :=
  c8_fk_synthesis [cOrderEnt, c8UserEnt] [c8Rel] cOrderEnt c8Rel
    (List.mem_cons_self cOrderEnt [c8UserEnt])
    (List.mem_cons_self c8Rel []) rfl (by decide)

/-! ## Claim C10 — fk descriptor defaults -/

/-- C10: when a relationship's fk descriptor is absent or lacks the relevant
field, the `rel_map` entry defaults the synthesized foreign-key attribute
name to the lowercased to-entity name with `Id` appended, and the referenced
field name to `id`, the last dot-segment of the built-in default `User.id`.
Concretely, `{from: Order, to: User, type: many-to-one}` without an fk
descriptor yields the entry `{to: User, type: many-to-one, fk_attribute:
userId, ref_field: id}`. -/
theorem c10_fk_descriptor_defaults (rel : PRel) :
    ((rel.fk.bind FKDesc.fkAttr) = none →
      (relInfoOf rel).fk_attribute = lowerStr rel.pto ++ "Id")
    ∧ ((rel.fk.bind FKDesc.ref) = none →
      (relInfoOf rel).ref_field = lastDotSegment "User.id")
    ∧ lastDotSegment "User.id" = "id"
    ∧ relInfoOf cOrderUserRel
        = { rto := "User", rtype := "many-to-one", fk_attribute := "userId",
            ref_field := "id" }
    ∧ buildRelMap [cOrderUserRel]
        = [("Order", [{ rto := "User", rtype := "many-to-one",
                        fk_attribute := "userId", ref_field := "id" }])] := by
  refine ⟨?_, ?_, by decide, by decide, by decide⟩
  · intro h
    simp [relInfoOf, h]
  · intro h
    simp [relInfoOf, h]

/-- C10 (witness): the defaults theorem applied to the concrete fk-less
relationship `{from: Order, to: User}`. -/
theorem c10_witness :
    (relInfoOf cOrderUserRel).fk_attribute = lowerStr cOrderUserRel.pto ++ "Id"
    ∧ (relInfoOf cOrderUserRel).ref_field = lastDotSegment "User.id" :=
  ⟨(c10_fk_descriptor_defaults cOrderUserRel).1 rfl,
   (c10_fk_descriptor_defaults cOrderUserRel).2.1 rfl⟩

end SchemaGen
